import Mathlib

/-!
A shallow embedding of the `patchify` auto-update library (client `Updater`
state machine and HTTP response handling from `src/client.rs`, and the server
`Core` release registry from `src/server.rs`), together with theorems settling
the specification claims about it.

Machine integers are modelled as `Nat` with explicit bounds where the source
uses checked or saturating arithmetic.  External effects (HTTP, filesystem,
Ed25519, SHA-256, JSON parsing) are modelled as explicit environment
parameters; the control flow around them is translated from the source.
-/

set_option autoImplicit false

namespace Patchify

/-- Maximum value of a 64-bit `usize`, the type of the critical-actions counter
(`AtomicUsize`) in `Updater`. -/
def USIZE_MAX : Nat := 2 ^ 64 - 1

/-- Semantic version triple `major.minor.patch`.  The crate uses
`semver::Version`; this repository only ever constructs plain triples (no
pre-release or build metadata), for which `semver`'s order is lexicographic on
the three numeric components. -/
structure Version where
  major : Nat
  minor : Nat
  patch : Nat
deriving DecidableEq, Repr

/-- Lexicographic order on plain version triples, mirroring `semver`'s `Ord`
restricted to versions without pre-release identifiers. -/
def Version.le (a b : Version) : Bool :=
  decide (a.major < b.major ∨ (a.major = b.major ∧
    (a.minor < b.minor ∨ (a.minor = b.minor ∧ a.patch ≤ b.patch))))

/-- Binary maximum for versions, used to model `Iterator::max` over the keys of
the version map. -/
def Version.max (a b : Version) : Version :=
  if Version.le a b then b else a

/-- Maximum of a list of versions, defaulting to `0.0.0` for the empty list;
models `config.versions.keys().max().unwrap_or(&Version::new(0, 0, 0))`. -/
def maxVersion : List Version → Version
  | [] => ⟨0, 0, 0⟩
  | v :: rest => Version.max v (maxVersion rest)

/-- Rendering of a version as `x.y.z`, as produced by `semver`'s `Display`. -/
def versionToString (v : Version) : String :=
  toString v.major ++ "." ++ toString v.minor ++ "." ++ toString v.patch

/-- A SHA-256 digest (`rubedo::crypto::Sha256Hash`), modelled as its byte
sequence.  Equality is byte equality. -/
abbrev Sha256Hash := List Nat

/-- URLs, modelled by their textual form. -/
abbrev Url := String

/-- The `Status` enum of the client updater (`src/client.rs`). -/
inductive Status where
  | Idle : Status
  | Checking : Status
  | Downloading : Version → Nat → Status
  | Installing : Version → Status
  | PendingRestart : Version → Status
  | Restarting : Version → Status
deriving DecidableEq, Repr

/-- The `UpdaterError` enum of the client (`src/client.rs`), with payloads
carried as in the source (paths and I/O error messages as strings). -/
inductive UpdaterError where
  | FailedHashVerification : Version → UpdaterError
  | FailedSignatureVerification : Url → UpdaterError
  | HttpError : Url → Nat → UpdaterError
  | HttpRequestFailed : Url → String → UpdaterError
  | InvalidBody : Url → UpdaterError
  | InvalidPayload : Url → UpdaterError
  | InvalidSignature : Url → String → UpdaterError
  | InvalidUrl : Url → String → UpdaterError
  | MissingData : Url → Nat → Nat → UpdaterError
  | MissingSignature : Url → UpdaterError
  | TooMuchData : Url → Nat → Nat → UpdaterError
  | UnableToCreateDownload : String → String → UpdaterError
  | UnableToCreateTempDir : String → UpdaterError
  | UnableToGetFileMetadata : String → String → UpdaterError
  | UnableToMoveNewExe : String → String → UpdaterError
  | UnableToObtainCurrentExePath : String → UpdaterError
  | UnableToRenameCurrentExe : String → String → UpdaterError
  | UnableToSetFilePermissions : String → String → UpdaterError
  | UnableToWriteToDownload : String → String → UpdaterError
  | UnexpectedContentType : Url → String → String → UpdaterError
deriving DecidableEq, Repr

/-- Header name `Content-Type` (header lookup in `reqwest` is
case-insensitive; the model normalises names to lowercase). -/
def hdrContentType : String := "content-type"

/-- Header name `Content-Length`. -/
def hdrContentLength : String := "content-length"

/-- Header name `X-Signature`. -/
def hdrSignature : String := "x-signature"

/-- The expected content type of metadata responses. -/
def ctJson : String := "application/json"

/-- The expected content type of release-file responses. -/
def ctOctetStream : String := "application/octet-stream"

/-- Value of a hexadecimal digit character, accepting both cases; `none` for a
non-hex character.  Used to model `hex::decode`. -/
def hexDigitVal (c : Char) : Option Nat :=
  if '0' ≤ c ∧ c ≤ '9' then some (c.toNat - 48)
  else if 'a' ≤ c ∧ c ≤ 'f' then some (c.toNat - 87)
  else if 'A' ≤ c ∧ c ≤ 'F' then some (c.toNat - 55)
  else none

/-- Decoding of a hex character list to bytes: models `hex::decode`, which
requires an even number of characters, all hexadecimal digits. -/
def hexDecodeList : List Char → Option (List Nat)
  | [] => some []
  | [_] => none
  | a :: b :: rest =>
    match hexDigitVal a, hexDigitVal b, hexDecodeList rest with
    | some x, some y, some tail => some ((x * 16 + y) :: tail)
    | _, _, _ => none

/-- Decoding of a hex string to bytes (`hex::decode`). -/
def hexDecode (s : String) : Option (List Nat) :=
  hexDecodeList s.data

/-- Accumulation of decimal digits; `none` on the first non-digit character.
Helper for `parseUsize`. -/
def digitsToNat : List Char → Nat → Option Nat
  | [], acc => some acc
  | c :: rest, acc =>
    if c.isDigit then digitsToNat rest (acc * 10 + (c.toNat - 48)) else none

/-- Models `<usize as FromStr>::from_str`: an optional leading `+`, then one or
more ASCII digits, with the value required to fit in 64 bits. -/
def parseUsize (s : String) : Option Nat :=
  let cs :=
    match s.data with
    | '+' :: rest => rest
    | other => other
  match cs with
  | [] => none
  | _ =>
    match digitsToNat cs 0 with
    | none => none
    | some n => if n ≤ USIZE_MAX then some n else none

/-- An HTTP response as observed by the client.  `headers` maps lowercase
header names to values; `body` is the result of `Response::text()` (`none`
models a failure to read the body as text, yielding `InvalidBody`); a `String`
body stands for its UTF-8 byte content.  `stream` is the chunk sequence
produced by `Response::bytes_stream()`: each item is either a byte chunk or a
transport error. -/
structure ResponseData where
  status : Nat
  headers : String → Option String
  body : Option String
  stream : List (Except String (List Nat))

/-- Models `StatusCode::is_success`: a 2xx status code. -/
def statusIsSuccess (n : Nat) : Bool :=
  decide (200 ≤ n ∧ n < 300)

/-- Models `get_header` from `src/client.rs` at type `String`: read the named
header and fall back to `String::default()` (the empty string) when it is
missing. -/
def getHeaderString (resp : ResponseData) (name : String) : String :=
  (resp.headers name).getD ""

/-- Models `get_header` from `src/client.rs` at type `usize`: read the named
header, parse it with `usize::from_str`, and fall back to `usize::default()`
(zero) when it is missing or unparseable. -/
def getHeaderNat (resp : ResponseData) (name : String) : Nat :=
  match resp.headers name with
  | none => 0
  | some v => (parseUsize v).getD 0

/-- The client configuration (`Config` in `src/client.rs`), restricted to the
fields the modelled operations read.  `verify` models
`self.config.key.verify_strict(body_bytes, signature)` for the configured
Ed25519 verifying key: it takes the response body (standing for its UTF-8
bytes) and the 64 decoded signature bytes. -/
structure CConfig where
  version : Version
  api : Url
  verify : String → List Nat → Bool

/-- Models `Updater::decode_and_verify::<T>`: header extraction, body
retrieval, content-type check, exact content-length check, signature header
presence, hex decode, 64-byte length check, Ed25519 strict verification over
the body, and finally JSON decoding (`parse` models
`serde_json::from_str::<T>`). -/
def decodeAndVerify {T : Type} (cfg : CConfig) (parse : String → Option T)
    (url : Url) (resp : ResponseData) : Except UpdaterError T :=
  let contentType := getHeaderString resp hdrContentType
  let contentLength := getHeaderNat resp hdrContentLength
  let signature := getHeaderString resp hdrSignature
  match resp.body with
  | none => .error (.InvalidBody url)
  | some body =>
    if contentType ≠ ctJson then
      .error (.UnexpectedContentType url contentType ctJson)
    else if body.utf8ByteSize < contentLength then
      .error (.MissingData url body.utf8ByteSize contentLength)
    else if contentLength < body.utf8ByteSize then
      .error (.TooMuchData url body.utf8ByteSize contentLength)
    else if signature = "" then
      .error (.MissingSignature url)
    else
      match hexDecode signature with
      | none => .error (.InvalidSignature url signature)
      | some sigBytes =>
        if sigBytes.length = 64 then
          if cfg.verify body sigBytes then
            match parse body with
            | none => .error (.InvalidPayload url)
            | some v => .ok v
          else .error (.FailedSignatureVerification url)
        else .error (.InvalidSignature url signature)

/-- The observable state of an `Updater`.  `actions` is the critical-actions
counter (`AtomicUsize`), `status` the guarded status cell, `broadcasts` the
ordered list of statuses published on the broadcast channel, `requests` the
ordered list of endpoints for which an HTTP GET was issued, and `restartCount`
the number of invocations of the restart primitive (`Updater::restart`, an
exec). -/
structure UState where
  actions : Nat
  status : Status
  broadcasts : List Status
  requests : List String
  restartCount : Nat
deriving DecidableEq, Repr

/-- Models `Updater::set_status`: write the status cell, then publish the new
status on the broadcast channel. -/
def setStatus (s : UState) (st : Status) : UState :=
  { s with status := st, broadcasts := s.broadcasts ++ [st] }

/-- Records one invocation of the restart primitive (`Updater::restart`). -/
def doRestart (s : UState) : UState :=
  { s with restartCount := s.restartCount + 1 }

/-- Models `Updater::register_action`: refuse (returning `none`) when the
status is `PendingRestart` or `Restarting`; otherwise increment the counter by
compare-and-swap, `checked_add` making the increment fail (returning `none`)
at `usize::MAX`.  On success the returned value is the old counter value
`saturating_add 1`. -/
def registerAction (s : UState) : Option Nat × UState :=
  match s.status with
  | .PendingRestart _ => (none, s)
  | .Restarting _ => (none, s)
  | _ =>
    if s.actions = USIZE_MAX then (none, s)
    else (some (s.actions + 1), { s with actions := s.actions + 1 })

/-- Models `Updater::deregister_action`: decrement the counter by
compare-and-swap, `checked_sub` making the decrement fail (returning `none`)
at zero.  If afterwards the status is `PendingRestart v` and the new count is
zero, set the status to `Restarting v` and invoke the restart primitive. -/
def deregisterAction (s : UState) : Option Nat × UState :=
  if s.actions = 0 then (none, s)
  else
    let newCount := s.actions - 1
    let s1 : UState := { s with actions := newCount }
    match s1.status with
    | .PendingRestart v =>
      if 0 < newCount then (some newCount, s1)
      else (some newCount, doRestart (setStatus s1 (Status.Restarting v)))
    | _ => (some newCount, s1)

/-- The environment of external effects seen by the client pipeline.  Each
field fixes the outcome of one kind of I/O operation: `joinUrl` models
`Url::join` on the configured base URL, `send` the HTTP GET for a URL,
`parseLatest` and `parseVersionHash` the `serde_json` decoders for the two
response payloads, `tempdirResult`/`tempdirPath` the `tempfile::tempdir`
call, `createFileResult` the creation of the download file, `writeResult i`
the write of the `i`-th streamed chunk, `sha256` the SHA-256 digest of a byte
sequence, and `replaceResult` the outcome of `Updater::replace_executable`
(the rename/copy/chmod sequence, whose internals no claim depends on). -/
structure Env where
  joinUrl : String → Option Url
  send : Url → Except String ResponseData
  parseLatest : String → Option Version
  parseVersionHash : String → Option (Version × Sha256Hash)
  tempdirResult : Except String Unit
  tempdirPath : String
  createFileResult : Except String Unit
  writeResult : Nat → Except String Unit
  sha256 : List Nat → Sha256Hash
  replaceResult : Except UpdaterError Unit

/-- The endpoint queried by the version check. -/
def latestEndpoint : String := "latest"

/-- The endpoint serving the release file for a version. -/
def releasesEndpoint (v : Version) : String :=
  "releases/" ++ versionToString v

/-- The endpoint serving the signed hash for a version. -/
def hashesEndpoint (v : Version) : String :=
  "hashes/" ++ versionToString v

/-- The pure outcome of `Updater::request`: join the endpoint onto the base
URL (`InvalidUrl` on failure), send the GET (`HttpRequestFailed` on transport
error), and check for a 2xx status (`HttpError` otherwise). -/
def requestResult (cfg : CConfig) (env : Env) (endpoint : String) :
    Except UpdaterError (Url × ResponseData) :=
  match env.joinUrl endpoint with
  | none => .error (.InvalidUrl cfg.api endpoint)
  | some url =>
    match env.send url with
    | .error msg => .error (.HttpRequestFailed url msg)
    | .ok resp =>
      if statusIsSuccess resp.status then .ok (url, resp)
      else .error (.HttpError url resp.status)

/-- The HTTP requests recorded by one call to `Updater::request`: the GET is
issued exactly when the URL join succeeds. -/
def requestTrace (env : Env) (endpoint : String) : List String :=
  match env.joinUrl endpoint with
  | none => []
  | some _ => [endpoint]

/-- Models `Updater::request` including its observable effect (the issued
request). -/
def requestM (cfg : CConfig) (env : Env) (s : UState) (endpoint : String) :
    UState × Except UpdaterError (Url × ResponseData) :=
  ({ s with requests := s.requests ++ requestTrace env endpoint },
   requestResult cfg env endpoint)

/-- Number of binary digits of a natural number (0 for 0), via a fuel
argument to keep the recursion structural. -/
def natBitsAux : Nat → Nat → Nat
  | 0, _ => 0
  | fuel + 1, n => if n = 0 then 0 else natBitsAux fuel (n / 2) + 1

/-- Number of binary digits of a natural number (0 for 0). -/
def natBits (n : Nat) : Nat :=
  natBitsAux n n

/-- Rounds the positive rational `num / den` (both arguments positive) to an
IEEE-754 binary64 significand-exponent pair `(m, e)` with `2^52 ≤ m < 2^53`
and value `m * 2^e`, using round-to-nearest, ties-to-even: the rational is
scaled by a power of two so that its integer part has 54 or 55 binary digits,
then cut to 53 significant digits with the dropped part deciding the rounding.
Exponent range is unbounded; this is exact binary64 arithmetic for all the
operands arising in the progress computation, whose magnitudes (between
`2^-64` and `2^71`) stay far from binary64 overflow and subnormal
thresholds. -/
def roundPosRat (num den : Nat) : Nat × Int :=
  let t : Int := 54 - ((natBits num : Int) - (natBits den : Int))
  let N := num * 2 ^ t.toNat
  let D := den * 2 ^ (-t).toNat
  let q0 := N / D
  let r0 := N % D
  if q0 < 2 ^ 54 then
    let m0 := q0 / 2
    let m := if q0 % 2 = 1 then (if r0 ≠ 0 then m0 + 1 else m0 + m0 % 2) else m0
    if m = 2 ^ 53 then (2 ^ 52, 2 - t) else (m, 1 - t)
  else
    let m0 := q0 / 4
    let m :=
      if q0 % 4 > 2 then m0 + 1
      else if q0 % 4 = 2 then (if r0 ≠ 0 then m0 + 1 else m0 + m0 % 2)
      else m0
    if m = 2 ^ 53 then (2 ^ 52, 3 - t) else (m, 2 - t)

/-- Models the progress computation
`(body_len as f64 / content_length as f64 * 100.0) as u8` in
`Updater::download_update`, with bit-exact IEEE-754 binary64 semantics: both
`u64` operands are rounded to binary64 (exact below `2^53`, round-to-nearest
above), the division and the multiplication by 100 each round to nearest
(ties to even), and the final `as u8` cast is Rust's saturating
float-to-integer cast (NaN from `0.0/0.0` gives 0, positive infinity from
`x/0.0` with `x > 0` gives 255, finite values are truncated toward zero and
clamped to 255).  All intermediate magnitudes lie between `2^-64` and `2^71`,
far from binary64 overflow and subnormal thresholds, so the
significand-exponent arithmetic of `roundPosRat` is exact binary64
arithmetic here. -/
def downloadPercent (received len : Nat) : Nat :=
  if len = 0 then (if received = 0 then 0 else 255)
  else if received = 0 then 0
  else
    let a := roundPosRat received 1
    let b := roundPosRat len 1
    let q := roundPosRat a.1 b.1
    let qe : Int := q.2 + a.2 - b.2
    let p := roundPosRat (q.1 * 100) 1
    let pe : Int := p.2 + qe
    let v := if 0 ≤ pe then 255 else p.1 / 2 ^ (-pe).toNat
    min v 255

/-- Accumulator of the chunk-download loop in `Updater::download_update`:
statuses emitted so far, bytes fed to the running SHA-256 so far, and the
accumulated body length (`body_len`). -/
structure DlAcc where
  emitted : List Status
  bytes : List Nat
  bodyLen : Nat
deriving Repr

/-- The chunk loop of `Updater::download_update`
(`while let Some(Ok(chunk)) = response_stream.next().await`): the loop stops
at the end of the stream or at the first error item; for each chunk it writes
to the download file (an error here aborts the download with the write error
message), feeds the chunk to the hasher, accumulates `body_len` with
`saturating_add`, and emits a `Downloading` status with the current
percentage.  Returns the accumulator and the write error, if any. -/
def dlLoop (v : Version) (cl : Nat) (write : Nat → Except String Unit) :
    List (Except String (List Nat)) → Nat → DlAcc → DlAcc × Option String
  | [], _, acc => (acc, none)
  | .error _ :: _, _, acc => (acc, none)
  | .ok chunk :: rest, idx, acc =>
    match write idx with
    | .error e => (acc, some e)
    | .ok _ =>
      let newLen := min (acc.bodyLen + chunk.length) USIZE_MAX
      dlLoop v cl write rest (idx + 1)
        { emitted := acc.emitted ++ [Status.Downloading v (downloadPercent newLen cl)],
          bytes := acc.bytes ++ chunk,
          bodyLen := newLen }

/-- Replays a list of emitted statuses through `set_status`. -/
def applyEmits (s : UState) : List Status → UState
  | [] => s
  | st :: rest => applyEmits (setStatus s st) rest

/-- Models `Updater::download_update`: create a temporary directory and the
download file, request `releases/{version}`, check the content type, stream
the body while hashing and emitting progress statuses, and finally compare the
received length against the declared `Content-Length`. -/
def downloadUpdate (cfg : CConfig) (env : Env) (v : Version) (s : UState) :
    UState × Except UpdaterError Sha256Hash :=
  match env.tempdirResult with
  | .error e => (s, .error (.UnableToCreateTempDir e))
  | .ok _ =>
    let updatePath := env.tempdirPath ++ "/update-" ++ versionToString v
    match env.createFileResult with
    | .error e => (s, .error (.UnableToCreateDownload updatePath e))
    | .ok _ =>
      let (s1, r) := requestM cfg env s (releasesEndpoint v)
      match r with
      | .error e => (s1, .error e)
      | .ok (url, resp) =>
        let contentType := getHeaderString resp hdrContentType
        let contentLength := getHeaderNat resp hdrContentLength
        if contentType ≠ ctOctetStream then
          (s1, .error (.UnexpectedContentType url contentType ctOctetStream))
        else
          match dlLoop v contentLength env.writeResult resp.stream 0 ⟨[], [], 0⟩ with
          | (acc, some e) =>
            (applyEmits s1 acc.emitted, .error (.UnableToWriteToDownload updatePath e))
          | (acc, none) =>
            let s2 := applyEmits s1 acc.emitted
            if acc.bodyLen < contentLength then
              (s2, .error (.MissingData url acc.bodyLen contentLength))
            else if contentLength < acc.bodyLen then
              (s2, .error (.TooMuchData url acc.bodyLen contentLength))
            else (s2, .ok (env.sha256 acc.bytes))

/-- Models `Updater::verify_update`: request `hashes/{version}`, decode and
verify the signed `VersionHashResponse`, then compare its `version` field
(`InvalidPayload` on mismatch) and its `hash` field (`FailedHashVerification`
on mismatch). -/
def verifyUpdate (cfg : CConfig) (env : Env) (v : Version) (hash : Sha256Hash)
    (s : UState) : UState × Except UpdaterError Unit :=
  let (s1, r) := requestM cfg env s (hashesEndpoint v)
  match r with
  | .error e => (s1, .error e)
  | .ok (url, resp) =>
    match decodeAndVerify cfg env.parseVersionHash url resp with
    | .error e => (s1, .error e)
    | .ok json =>
      if json.1 ≠ v then (s1, .error (.InvalidPayload url))
      else if json.2 ≠ hash then (s1, .error (.FailedHashVerification v))
      else (s1, .ok ())

/-- Models `Updater::check_for_updates`: the entry guard (return immediately
unless the status is `Idle`), the early check phase (request and decode the
latest version, resetting the status to `Idle` on error or when no newer
version exists), and the confirmed pipeline (download, verify, install,
then either `PendingRestart` when critical actions are in progress or
`Restarting` plus the restart primitive), where a failure after confirmation
returns without touching the status further. -/
def checkForUpdates (cfg : CConfig) (env : Env) (s : UState) : UState :=
  if s.status ≠ Status.Idle then s
  else
    let s1 := setStatus s Status.Checking
    let (s2, r) := requestM cfg env s1 latestEndpoint
    match r with
    | .error _ => setStatus s2 Status.Idle
    | .ok (url, resp) =>
      match decodeAndVerify cfg env.parseLatest url resp with
      | .error _ => setStatus s2 Status.Idle
      | .ok version =>
        if Version.le version cfg.version then setStatus s2 Status.Idle
        else
          let s3 := setStatus s2 (Status.Downloading version 0)
          let (s4, dl) := downloadUpdate cfg env version s3
          match dl with
          | .error _ => s4
          | .ok fileHash =>
            let (s5, vr) := verifyUpdate cfg env version fileHash s4
            match vr with
            | .error _ => s5
            | .ok _ =>
              let s6 := setStatus s5 (Status.Installing version)
              match env.replaceResult with
              | .error _ => s6
              | .ok _ =>
                if s6.actions ≠ 0 then setStatus s6 (Status.PendingRestart version)
                else doRestart (setStatus s6 (Status.Restarting version))

/-- The combined pure outcome of the early check phase of
`check_for_updates`: the request for `latest` followed by
`decode_and_verify::<LatestVersionResponse>`, yielding the advertised latest
version.  The two error sources are exactly the two early-phase error returns
of the source. -/
def latestOutcome (cfg : CConfig) (env : Env) : Except UpdaterError Version :=
  match requestResult cfg env latestEndpoint with
  | .error e => .error e
  | .ok (url, resp) => decodeAndVerify cfg env.parseLatest url resp

/-- One client counter operation, for reasoning about interleavings of
`register_action` and `deregister_action`.  Both operations use a
sequentially-consistent compare-and-swap, so any concurrent execution of them
linearises to a sequence of atomic applications. -/
inductive CounterOp where
  | register : CounterOp
  | deregister : CounterOp
deriving DecidableEq, Repr

/-- Applies one counter operation to the updater state. -/
def applyCounterOp (s : UState) : CounterOp → UState
  | .register => (registerAction s).2
  | .deregister => (deregisterAction s).2

/-- Applies a sequence of counter operations in order. -/
def runOps (s : UState) : List CounterOp → UState
  | [] => s
  | op :: rest => runOps (applyCounterOp s op) rest

/-- The `ReleaseError` enum of the server (`src/server.rs`).  `Unreadable`
carries the `std::io::ErrorKind` (rendered as a string) and the error
message. -/
inductive ReleaseError where
  | Invalid : Version → String → ReleaseError
  | Missing : Version → String → ReleaseError
  | Unreadable : Version → String → String → ReleaseError
deriving DecidableEq, Repr

/-- The server configuration (`Config` in `src/server.rs`), restricted to the
fields `Core::new` reads.  `versions` is the version map in its (arbitrary)
iteration order; the streaming parameters and signing key play no part in the
modelled construction. -/
structure SConfig where
  appname : String
  releases : String
  versions : List (Version × Sha256Hash)
deriving DecidableEq, Repr

instance {ε α : Type} [DecidableEq ε] [DecidableEq α] : DecidableEq (Except ε α) := fun x y => by
  cases x with
  | ok a =>
    cases y with
    | ok b => exact decidable_of_iff (a = b) (by simp)
    | error b => exact isFalse (by simp)
  | error a =>
    cases y with
    | ok b => exact isFalse (by simp)
    | error b => exact decidable_of_iff (a = b) (by simp)

/-- What the filesystem reports for one path during `Core::new`:
`pathExists`/`isFile` model `Path::exists` and `Path::is_file`, and
`hashResult` models `File::hash(&path)` (SHA-256 of the file contents, or an
I/O error kind and message). -/
structure FsEntry where
  pathExists : Bool
  isFile : Bool
  hashResult : Except (String × String) Sha256Hash
deriving DecidableEq, Repr

/-- A filesystem snapshot: what each path reports. -/
abbrev Fs := String → FsEntry

/-- The on-disk path of a release file:
`config.releases.join(format!("{}-{}", config.appname, version))`. -/
def releaseFilePath (cfg : SConfig) (v : Version) : String :=
  cfg.releases ++ "/" ++ cfg.appname ++ "-" ++ versionToString v

/-- The per-entry validation loop of `Core::new`: for each `(version, hash)`
pair, fail with `Missing` when the file is absent or not a regular file, with
`Unreadable` when hashing it fails, and with `Invalid` when the computed hash
differs from the declared one. -/
def checkReleases (fs : Fs) (cfg : SConfig) :
    List (Version × Sha256Hash) → Except ReleaseError Unit
  | [] => .ok ()
  | (v, h) :: rest =>
    let path := releaseFilePath cfg v
    let entry := fs path
    if entry.pathExists && entry.isFile then
      match entry.hashResult with
      | .error ke => .error (.Unreadable v ke.1 ke.2)
      | .ok fileHash =>
        if fileHash ≠ h then .error (.Invalid v path)
        else checkReleases fs cfg rest
    else .error (.Missing v path)

/-- The server `Core` (`src/server.rs`): the configuration plus the cached
latest version. -/
structure Core where
  config : SConfig
  latest : Version
deriving DecidableEq, Repr

/-- Models `Core::new`: validate every configured release against the
filesystem, then cache `latest` as the maximum configured version (or `0.0.0`
when the version map is empty). -/
def coreNew (fs : Fs) (cfg : SConfig) : Except ReleaseError Core :=
  match checkReleases fs cfg cfg.versions with
  | .error e => .error e
  | .ok _ => .ok { config := cfg, latest := maxVersion (cfg.versions.map Prod.fst) }

/-- One configured release entry passes the startup validation of
`Core::new`: its file exists, is a regular file, and hashes to the declared
hash. -/
def entryOk (fs : Fs) (cfg : SConfig) (v : Version) (h : Sha256Hash) : Prop :=
  (fs (releaseFilePath cfg v)).pathExists = true ∧
  (fs (releaseFilePath cfg v)).isFile = true ∧
  (fs (releaseFilePath cfg v)).hashResult = .ok h

instance (fs : Fs) (cfg : SConfig) (v : Version) (h : Sha256Hash) :
    Decidable (entryOk fs cfg v h) := by
  unfold entryOk
  infer_instance

/-- A 128-character hex string (all zeros), decoding to 64 zero bytes: a
well-formed `X-Signature` header value. -/
def sigZeros : String := String.mk (List.replicate 128 '0')

/-- A well-formed metadata response: JSON content type, accurate content
length, well-formed signature header, two-byte body. -/
def respGood : ResponseData where
  status := 200
  headers := fun n =>
    if n = hdrContentType then some ctJson
    else if n = hdrContentLength then some "2"
    else if n = hdrSignature then some sigZeros
    else none
  body := some "hi"
  stream := []

/-- A metadata response that omits the `Content-Length` header but is
otherwise well-formed, with a one-byte body. -/
def respNoCL : ResponseData where
  status := 200
  headers := fun n =>
    if n = hdrContentType then some ctJson
    else if n = hdrSignature then some sigZeros
    else none
  body := some "x"
  stream := []

/-- A metadata response declaring a `Content-Length` larger than its body. -/
def respShort : ResponseData where
  status := 200
  headers := fun n =>
    if n = hdrContentType then some ctJson
    else if n = hdrContentLength then some "5"
    else if n = hdrSignature then some sigZeros
    else none
  body := some "abc"
  stream := []

/-- A metadata response declaring a `Content-Length` smaller than its body. -/
def respLong : ResponseData where
  status := 200
  headers := fun n =>
    if n = hdrContentType then some ctJson
    else if n = hdrContentLength then some "1"
    else if n = hdrSignature then some sigZeros
    else none
  body := some "abc"
  stream := []

/-- A client configuration whose signature verification always succeeds. -/
def cfgTrue : CConfig where
  version := ⟨1, 0, 0⟩
  api := "http://api.example.com/api/"
  verify := fun _ _ => true

/-- A client configuration whose signature verification always fails. -/
def cfgFalse : CConfig where
  version := ⟨1, 0, 0⟩
  api := "http://api.example.com/api/"
  verify := fun _ _ => false

/-- C1: `decode_and_verify` returns a decoded value only if Ed25519 strict
verification of the hex-decoded `X-Signature` header over the response body
bytes with the configured verifying key succeeds (first conjunct); once the
header checks pass, a cryptographic mismatch yields
`FailedSignatureVerification`, and JSON decoding is attempted only after
verification succeeds, a parse failure then yielding `InvalidPayload` (second
conjunct). -/
theorem C1_decode_and_verify_signature_gate {T : Type} (cfg : CConfig)
    (parse : String → Option T) (url : Url) (resp : ResponseData) :
    (∀ t, decodeAndVerify cfg parse url resp = .ok t →
      ∃ body sigBytes,
        resp.body = some body ∧
        hexDecode (getHeaderString resp hdrSignature) = some sigBytes ∧
        sigBytes.length = 64 ∧
        cfg.verify body sigBytes = true ∧
        parse body = some t) ∧
    (∀ body sigBytes,
      resp.body = some body →
      getHeaderString resp hdrContentType = ctJson →
      body.utf8ByteSize = getHeaderNat resp hdrContentLength →
      getHeaderString resp hdrSignature ≠ "" →
      hexDecode (getHeaderString resp hdrSignature) = some sigBytes →
      sigBytes.length = 64 →
      (cfg.verify body sigBytes = false →
        decodeAndVerify cfg parse url resp =
          .error (.FailedSignatureVerification url)) ∧
      (cfg.verify body sigBytes = true → parse body = none →
        decodeAndVerify cfg parse url resp = .error (.InvalidPayload url))) := by
  constructor
  · intro t h
    simp only [decodeAndVerify] at h
    rcases hb : resp.body with _ | body
    · rw [hb] at h
      simp at h
    · rw [hb] at h
      simp only at h
      split at h
      · simp at h
      split at h
      · simp at h
      split at h
      · simp at h
      split at h
      · simp at h
      split at h
      · simp at h
      · rename_i sigBytes hhex
        split at h
        · rename_i hslen
          split at h
          · rename_i hver
            split at h
            · simp at h
            · rename_i t' hparse
              simp only [Except.ok.injEq] at h
              exact ⟨body, sigBytes, rfl, hhex, hslen, hver, by rw [hparse, h]⟩
          · simp at h
        · simp at h
  · intro body sigBytes hb hct hlen hsig hhex hslen
    constructor
    · intro hver
      simp [decodeAndVerify, hb, hct, hlen, hsig, hhex, hver, hslen]
    · intro hver hparse
      simp [decodeAndVerify, hb, hct, hlen, hsig, hhex, hver, hslen, hparse]

/-- Witness for C1: at a concrete accepted response the signature facts hold,
and at the same response with a failing key the result is
`FailedSignatureVerification`. -/
theorem C1_decode_and_verify_signature_gate_witness :
    (∃ body sigBytes,
      respGood.body = some body ∧
      hexDecode (getHeaderString respGood hdrSignature) = some sigBytes ∧
      sigBytes.length = 64 ∧
      cfgTrue.verify body sigBytes = true ∧
      (fun _ : String => some (42 : Nat)) body = some 42) ∧
    decodeAndVerify cfgFalse (fun _ : String => some (42 : Nat)) "u" respGood =
      .error (.FailedSignatureVerification "u") := by
  constructor
  · exact (C1_decode_and_verify_signature_gate cfgTrue
      (fun _ : String => some (42 : Nat)) "u" respGood).1 42 (by decide)
  · exact ((C1_decode_and_verify_signature_gate cfgFalse
      (fun _ : String => some (42 : Nat)) "u" respGood).2 "hi" (List.replicate 64 0)
      (by decide) (by decide) (by decide) (by decide) (by decide) (by decide)).1 (by decide)

/-- Case analysis of the length check in `decode_and_verify`: with a readable
body and JSON content type, a shorter body than declared yields `MissingData`,
a longer one yields `TooMuchData`, and an exact one is never rejected with a
length error. -/
theorem decode_length_cases {T : Type} (cfg : CConfig)
    (parse : String → Option T) (url : Url) (resp : ResponseData) (body : String)
    (hb : resp.body = some body)
    (hct : getHeaderString resp hdrContentType = ctJson) :
    (body.utf8ByteSize < getHeaderNat resp hdrContentLength →
      decodeAndVerify cfg parse url resp =
        .error (.MissingData url body.utf8ByteSize (getHeaderNat resp hdrContentLength))) ∧
    (getHeaderNat resp hdrContentLength < body.utf8ByteSize →
      decodeAndVerify cfg parse url resp =
        .error (.TooMuchData url body.utf8ByteSize (getHeaderNat resp hdrContentLength))) ∧
    (body.utf8ByteSize = getHeaderNat resp hdrContentLength →
      (∀ u a b, decodeAndVerify cfg parse url resp ≠ .error (.MissingData u a b)) ∧
      (∀ u a b, decodeAndVerify cfg parse url resp ≠ .error (.TooMuchData u a b))) := by
  refine ⟨?_, ?_, ?_⟩
  · intro hlt
    simp [decodeAndVerify, hb, hct, hlt, Nat.not_lt.mpr (Nat.le_of_lt hlt)]
  · intro hgt
    simp [decodeAndVerify, hb, hct, hgt, Nat.not_lt.mpr (Nat.le_of_lt hgt)]
  · intro heq
    constructor <;> intro u a b hcontra <;>
      · simp only [decodeAndVerify, hb, hct, heq] at hcontra
        repeat' split at hcontra
        all_goals simp_all

/-- C6: in `decode_and_verify`, once the body is readable and the content type
is `application/json`, a body strictly shorter than the declared
`Content-Length` yields `MissingData`, a strictly longer one yields
`TooMuchData`, and a body of exactly the declared length passes the length
check (the result is never a length error). -/
theorem C6_content_length_exact {T : Type} (cfg : CConfig)
    (parse : String → Option T) (url : Url) (resp : ResponseData) (body : String)
    (hb : resp.body = some body)
    (hct : getHeaderString resp hdrContentType = ctJson) :
    (body.utf8ByteSize < getHeaderNat resp hdrContentLength →
      decodeAndVerify cfg parse url resp =
        .error (.MissingData url body.utf8ByteSize (getHeaderNat resp hdrContentLength))) ∧
    (getHeaderNat resp hdrContentLength < body.utf8ByteSize →
      decodeAndVerify cfg parse url resp =
        .error (.TooMuchData url body.utf8ByteSize (getHeaderNat resp hdrContentLength))) ∧
    (body.utf8ByteSize = getHeaderNat resp hdrContentLength →
      (∀ u a b, decodeAndVerify cfg parse url resp ≠ .error (.MissingData u a b)) ∧
      (∀ u a b, decodeAndVerify cfg parse url resp ≠ .error (.TooMuchData u a b))) :=
  decode_length_cases cfg parse url resp body hb hct

/-- Witness for C6: a concrete short body yields `MissingData`, a concrete
long body yields `TooMuchData`, and a concrete exact body is not rejected with
a length error. -/
theorem C6_content_length_exact_witness :
    decodeAndVerify cfgTrue (fun _ : String => some (0 : Nat)) "u" respShort =
      .error (.MissingData "u" 3 5) ∧
    decodeAndVerify cfgTrue (fun _ : String => some (0 : Nat)) "u" respLong =
      .error (.TooMuchData "u" 3 1) ∧
    decodeAndVerify cfgTrue (fun _ : String => some (0 : Nat)) "u" respGood ≠
      .error (.MissingData "u" 2 2) := by
  refine ⟨?_, ?_, ?_⟩
  · exact (C6_content_length_exact cfgTrue (fun _ : String => some (0 : Nat)) "u"
      respShort "abc" (by decide) (by decide)).1 (by decide)
  · exact (C6_content_length_exact cfgTrue (fun _ : String => some (0 : Nat)) "u"
      respLong "abc" (by decide) (by decide)).2.1 (by decide)
  · exact ((C6_content_length_exact cfgTrue (fun _ : String => some (0 : Nat)) "u"
      respGood "hi" (by decide) (by decide)).2.2 (by decide)).1 "u" 2 2

/-- A metadata response with an unparseable `Content-Length` header and an
empty body. -/
def respBadCL : ResponseData where
  status := 200
  headers := fun n =>
    if n = hdrContentType then some ctJson
    else if n = hdrContentLength then some "12x"
    else if n = hdrSignature then some sigZeros
    else none
  body := some ""
  stream := []

/-- Counterexample for C7: with the `Content-Length` header absent and a
nonempty body, `decode_and_verify` rejects with `TooMuchData`, not with
`MissingData` as the claim states. -/
theorem C7_default_content_length_counterexample :
    decodeAndVerify cfgTrue (fun _ : String => some (0 : Nat)) "u" respNoCL =
      .error (.TooMuchData "u" 1 0) ∧
    ∀ u a b,
      decodeAndVerify cfgTrue (fun _ : String => some (0 : Nat)) "u" respNoCL ≠
        .error (.MissingData u a b) := by
  have h0 : decodeAndVerify cfgTrue (fun _ : String => some (0 : Nat)) "u" respNoCL =
      .error (.TooMuchData "u" 1 0) := by decide
  refine ⟨h0, ?_⟩
  intro u a b hcontra
  rw [h0] at hcontra
  simp at hcontra

/-- C7 (amended): for every metadata response whose `Content-Length` header is
absent or unparseable, the header helper makes `content_length` default to 0;
a nonempty body then fails the length check with the `TooMuchData` error, an
empty body passes the length check (no length error is possible), and
`MissingData` can never arise from a defaulted `Content-Length`. -/
theorem C7_default_content_length_amended {T : Type} (cfg : CConfig)
    (parse : String → Option T) (url : Url) (resp : ResponseData) (body : String)
    (hb : resp.body = some body)
    (hct : getHeaderString resp hdrContentType = ctJson)
    (hcl : resp.headers hdrContentLength = none ∨
      ∃ cv, resp.headers hdrContentLength = some cv ∧ parseUsize cv = none) :
    getHeaderNat resp hdrContentLength = 0 ∧
    (0 < body.utf8ByteSize →
      decodeAndVerify cfg parse url resp =
        .error (.TooMuchData url body.utf8ByteSize 0)) ∧
    (body.utf8ByteSize = 0 →
      (∀ u a b, decodeAndVerify cfg parse url resp ≠ .error (.MissingData u a b)) ∧
      (∀ u a b, decodeAndVerify cfg parse url resp ≠ .error (.TooMuchData u a b))) ∧
    (∀ u a b, decodeAndVerify cfg parse url resp ≠ .error (.MissingData u a b)) := by
  have hdef : getHeaderNat resp hdrContentLength = 0 := by
    rcases hcl with h | ⟨cv, hv, hp⟩
    · simp [getHeaderNat, h]
    · simp [getHeaderNat, hv, hp]
  have hcases := decode_length_cases cfg parse url resp body hb hct
  have hgt := hcases.2.1
  rw [hdef] at hgt
  have heqc := hcases.2.2
  rw [hdef] at heqc
  refine ⟨hdef, hgt, heqc, ?_⟩
  intro u a b hcontra
  by_cases hz : body.utf8ByteSize = 0
  · exact (heqc hz).1 u a b hcontra
  · have h2 := hgt (Nat.pos_of_ne_zero hz)
    rw [h2] at hcontra
    simp at hcontra

/-- Witness for C7's amended statement: a concrete response with the header
absent and a nonempty body defaults to 0 and fails with `TooMuchData`, and a
concrete response with an unparseable header and an empty body defaults to 0
and passes the length check. -/
theorem C7_default_content_length_amended_witness :
    getHeaderNat respNoCL hdrContentLength = 0 ∧
    decodeAndVerify cfgFalse (fun _ : String => some (0 : Nat)) "u" respNoCL =
      .error (.TooMuchData "u" 1 0) ∧
    getHeaderNat respBadCL hdrContentLength = 0 ∧
    decodeAndVerify cfgFalse (fun _ : String => some (0 : Nat)) "u" respBadCL ≠
      .error (.TooMuchData "u" 0 0) ∧
    decodeAndVerify cfgFalse (fun _ : String => some (0 : Nat)) "u" respBadCL ≠
      .error (.MissingData "u" 0 0) := by
  have h1 := C7_default_content_length_amended cfgFalse (fun _ : String => some (0 : Nat))
    "u" respNoCL "x" (by decide) (by decide) (Or.inl (by decide))
  have h2 := C7_default_content_length_amended cfgFalse (fun _ : String => some (0 : Nat))
    "u" respBadCL "" (by decide) (by decide) (Or.inr ⟨"12x", by decide, by decide⟩)
  exact ⟨h1.1, h1.2.1 (by decide), h2.1, (h2.2.2.1 (by decide)).2 "u" 0 0,
    h2.2.2.2 "u" 0 0⟩

/-- Step lemma for the counter bound: one `register_action` or
`deregister_action` keeps the counter at or below `usize::MAX`. -/
theorem applyCounterOp_actions_le (s : UState) (op : CounterOp)
    (h : s.actions ≤ USIZE_MAX) : (applyCounterOp s op).actions ≤ USIZE_MAX := by
  obtain ⟨a, st, bc, rq, rc⟩ := s
  have ha : a ≤ USIZE_MAX := h
  cases op with
  | register =>
    have key : (applyCounterOp ⟨a, st, bc, rq, rc⟩ CounterOp.register).actions = a ∨
        ((applyCounterOp ⟨a, st, bc, rq, rc⟩ CounterOp.register).actions = a + 1 ∧
          a < USIZE_MAX) := by
      cases st
      case PendingRestart v => exact Or.inl rfl
      case Restarting v => exact Or.inl rfl
      all_goals
        by_cases hm : a = USIZE_MAX
        · left
          simp [applyCounterOp, registerAction, hm]
        · right
          refine ⟨?_, by omega⟩
          simp [applyCounterOp, registerAction, hm]
    rcases key with hk | ⟨hk, hlt⟩ <;> rw [hk] <;> omega
  | deregister =>
    have key : (applyCounterOp ⟨a, st, bc, rq, rc⟩ CounterOp.deregister).actions = a ∨
        (applyCounterOp ⟨a, st, bc, rq, rc⟩ CounterOp.deregister).actions = a - 1 := by
      by_cases h0 : a = 0
      · left
        simp [applyCounterOp, deregisterAction, h0]
      · right
        cases st
        all_goals simp only [applyCounterOp, deregisterAction, if_neg h0]
        all_goals split <;> rfl
    rcases key with hk | hk <;> rw [hk] <;> omega

/-- C3: the transition `PendingRestart(v) → Restarting(v)` occurs exactly
when a `deregister_action` call brings the counter from 1 to 0 while the
status is `PendingRestart(v)`: in that case the status is set to
`Restarting(v)` (broadcast once) and the restart primitive is invoked exactly
once; a deregistration that leaves the counter above 0 changes nothing but the
counter, and any status change or restart invocation performed by
`deregister_action` arises only in that exact configuration. -/
theorem C3_pending_restart_trigger :
    (∀ s v, s.status = Status.PendingRestart v →
      (s.actions = 1 →
        deregisterAction s =
          (some 0,
           { s with actions := 0, status := Status.Restarting v,
                    broadcasts := s.broadcasts ++ [Status.Restarting v],
                    restartCount := s.restartCount + 1 })) ∧
      (1 < s.actions →
        deregisterAction s =
          (some (s.actions - 1), { s with actions := s.actions - 1 }))) ∧
    (∀ s, ((deregisterAction s).2.status ≠ s.status ∨
           (deregisterAction s).2.restartCount ≠ s.restartCount) →
      ∃ v, s.status = Status.PendingRestart v ∧ s.actions = 1 ∧
        (deregisterAction s).2.status = Status.Restarting v ∧
        (deregisterAction s).2.restartCount = s.restartCount + 1) := by
  constructor
  · intro s v hst
    obtain ⟨a, st, bc, rq, rc⟩ := s
    simp only at hst
    subst hst
    constructor
    · intro h1
      simp only at h1
      subst h1
      simp [deregisterAction, setStatus, doRestart]
    · intro hgt
      simp only at hgt
      have h0 : ¬(a = 0) := by omega
      have h2 : 0 < a - 1 := by omega
      simp [deregisterAction, h0, h2]
  · intro s hch
    obtain ⟨a, st, bc, rq, rc⟩ := s
    by_cases h0 : a = 0
    · simp [deregisterAction, h0] at hch
    · cases st with
      | PendingRestart v =>
        by_cases hgt : 0 < a - 1
        · simp [deregisterAction, h0, hgt] at hch
        · have ha1 : a = 1 := by omega
          subst ha1
          exact ⟨v, rfl, rfl, by simp [deregisterAction, setStatus, doRestart],
            by simp [deregisterAction, setStatus, doRestart]⟩
      | Idle => simp [deregisterAction, h0] at hch
      | Checking => simp [deregisterAction, h0] at hch
      | Downloading v p => simp [deregisterAction, h0] at hch
      | Installing v => simp [deregisterAction, h0] at hch
      | Restarting v => simp [deregisterAction, h0] at hch

/-- Witness for C3 at concrete states: deregistering the last critical action
while pending restart triggers the restart exactly once, and deregistering
from a count of 2 changes only the counter. -/
theorem C3_pending_restart_trigger_witness :
    deregisterAction ⟨1, Status.PendingRestart ⟨2, 0, 0⟩, [], [], 0⟩ =
      (some 0, ⟨0, Status.Restarting ⟨2, 0, 0⟩, [Status.Restarting ⟨2, 0, 0⟩], [], 1⟩) ∧
    deregisterAction ⟨2, Status.PendingRestart ⟨2, 0, 0⟩, [], [], 0⟩ =
      (some 1, ⟨1, Status.PendingRestart ⟨2, 0, 0⟩, [], [], 0⟩) := by
  constructor
  · exact ((C3_pending_restart_trigger.1 ⟨1, Status.PendingRestart ⟨2, 0, 0⟩, [], [], 0⟩
      ⟨2, 0, 0⟩ rfl).1 rfl)
  · exact ((C3_pending_restart_trigger.1 ⟨2, Status.PendingRestart ⟨2, 0, 0⟩, [], [], 0⟩
      ⟨2, 0, 0⟩ rfl).2 (by decide))

/-- C4: `register_action` refuses with `none` when the status is
`PendingRestart` or `Restarting`; otherwise it increments by compare-and-swap,
refusing at `usize::MAX`; `deregister_action` decrements by compare-and-swap,
refusing at 0; and along any interleaving (linearisation) of these operations
the counter stays within `[0, usize::MAX]`. -/
theorem C4_counter_bounds :
    (∀ s v, (s.status = Status.PendingRestart v ∨ s.status = Status.Restarting v) →
      registerAction s = (none, s)) ∧
    (∀ s, (∀ v, s.status ≠ Status.PendingRestart v ∧ s.status ≠ Status.Restarting v) →
      (s.actions = USIZE_MAX → registerAction s = (none, s)) ∧
      (s.actions < USIZE_MAX →
        registerAction s = (some (s.actions + 1), { s with actions := s.actions + 1 }))) ∧
    (∀ s, (s.actions = 0 → deregisterAction s = (none, s)) ∧
      (0 < s.actions → (deregisterAction s).1 = some (s.actions - 1) ∧
        (deregisterAction s).2.actions = s.actions - 1)) ∧
    (∀ s ops, s.actions ≤ USIZE_MAX → (runOps s ops).actions ≤ USIZE_MAX) := by
  refine ⟨?_, ?_, ?_, ?_⟩
  · intro s v hst
    obtain ⟨a, st, bc, rq, rc⟩ := s
    rcases hst with h | h <;> simp only at h <;> subst h <;> rfl
  · intro s hst
    obtain ⟨a, st, bc, rq, rc⟩ := s
    constructor
    · intro hmax
      have hm : a = USIZE_MAX := hmax
      subst hm
      cases st
      case PendingRestart v => exact absurd rfl (hst v).1
      case Restarting v => exact absurd rfl (hst v).2
      all_goals simp [registerAction]
    · intro hlt
      have hl : a < USIZE_MAX := hlt
      have hne : ¬(a = USIZE_MAX) := by omega
      cases st
      case PendingRestart v => exact absurd rfl (hst v).1
      case Restarting v => exact absurd rfl (hst v).2
      all_goals simp [registerAction, hne]
  · intro s
    obtain ⟨a, st, bc, rq, rc⟩ := s
    constructor
    · intro h0
      simp only at h0
      subst h0
      rfl
    · intro hpos
      simp only at hpos
      have h0 : ¬(a = 0) := by omega
      simp only [deregisterAction, h0, if_false]
      cases st
      all_goals simp [setStatus, doRestart]
      all_goals split <;> simp [setStatus, doRestart]
  · intro s ops
    induction ops generalizing s with
    | nil => intro h; exact h
    | cons op rest ih =>
      intro h
      exact ih _ (applyCounterOp_actions_le s op h)

/-- Witness for C4 at concrete states: refusal while pending restart, refusal
at `usize::MAX`, a normal increment, refusal of deregistration at 0, and a
bounded run of operations. -/
theorem C4_counter_bounds_witness :
    registerAction ⟨0, Status.PendingRestart ⟨1, 2, 3⟩, [], [], 0⟩ =
      (none, ⟨0, Status.PendingRestart ⟨1, 2, 3⟩, [], [], 0⟩) ∧
    registerAction ⟨USIZE_MAX, Status.Idle, [], [], 0⟩ =
      (none, ⟨USIZE_MAX, Status.Idle, [], [], 0⟩) ∧
    registerAction ⟨5, Status.Idle, [], [], 0⟩ =
      (some 6, ⟨6, Status.Idle, [], [], 0⟩) ∧
    deregisterAction ⟨0, Status.Idle, [], [], 0⟩ =
      (none, ⟨0, Status.Idle, [], [], 0⟩) ∧
    (runOps ⟨0, Status.Idle, [], [], 0⟩
      [CounterOp.register, CounterOp.register, CounterOp.deregister]).actions ≤
      USIZE_MAX := by
  refine ⟨?_, ?_, ?_, ?_, ?_⟩
  · exact C4_counter_bounds.1 ⟨0, Status.PendingRestart ⟨1, 2, 3⟩, [], [], 0⟩
      ⟨1, 2, 3⟩ (Or.inl rfl)
  · exact (C4_counter_bounds.2.1 ⟨USIZE_MAX, Status.Idle, [], [], 0⟩
      (fun v => ⟨by simp, by simp⟩)).1 rfl
  · exact (C4_counter_bounds.2.1 ⟨5, Status.Idle, [], [], 0⟩
      (fun v => ⟨by simp, by simp⟩)).2 (by decide)
  · exact (C4_counter_bounds.2.2.1 ⟨0, Status.Idle, [], [], 0⟩).1 rfl
  · exact C4_counter_bounds.2.2.2 ⟨0, Status.Idle, [], [], 0⟩
      [CounterOp.register, CounterOp.register, CounterOp.deregister] (by decide)

/-- An environment in which every external operation is inert (URL joins
fail); used to instantiate theorems about code paths that perform no I/O. -/
def envTrivial : Env where
  joinUrl := fun _ => none
  send := fun _ => .error ""
  parseLatest := fun _ => none
  parseVersionHash := fun _ => none
  tempdirResult := .ok ()
  tempdirPath := "/tmp/x"
  createFileResult := .ok ()
  writeResult := fun _ => .ok ()
  sha256 := fun _ => []
  replaceResult := .ok ()

/-- C5: calling `check_for_updates` while the status is not `Idle` returns
immediately with the state unchanged: no status change, nothing emitted on the
broadcast channel, and no HTTP request issued. -/
theorem C5_reentrancy_refusal (cfg : CConfig) (env : Env) (s : UState)
    (h : s.status ≠ Status.Idle) :
    checkForUpdates cfg env s = s ∧
    (checkForUpdates cfg env s).broadcasts = s.broadcasts ∧
    (checkForUpdates cfg env s).requests = s.requests := by
  have he : checkForUpdates cfg env s = s := by
    simp [checkForUpdates, h]
  exact ⟨he, by rw [he], by rw [he]⟩

/-- Witness for C5 at a concrete non-idle state. -/
theorem C5_reentrancy_refusal_witness :
    checkForUpdates cfgTrue envTrivial ⟨0, Status.Checking, [], [], 0⟩ =
      ⟨0, Status.Checking, [], [], 0⟩ := by
  exact (C5_reentrancy_refusal cfgTrue envTrivial
    ⟨0, Status.Checking, [], [], 0⟩ (by decide)).1

/-- Characterisation of the boolean version order as a proposition, stated
over components. -/
theorem version_le_mk_iff (a1 a2 a3 b1 b2 b3 : Nat) :
    Version.le ⟨a1, a2, a3⟩ ⟨b1, b2, b3⟩ = true ↔
      (a1 < b1 ∨ (a1 = b1 ∧ (a2 < b2 ∨ (a2 = b2 ∧ a3 ≤ b3)))) := by
  simp [Version.le]

/-- The version order is reflexive. -/
theorem version_le_refl (a : Version) : Version.le a a = true := by
  obtain ⟨a1, a2, a3⟩ := a
  rw [version_le_mk_iff]
  omega

/-- The version order is transitive. -/
theorem version_le_trans {a b c : Version} (h1 : Version.le a b = true)
    (h2 : Version.le b c = true) : Version.le a c = true := by
  obtain ⟨a1, a2, a3⟩ := a
  obtain ⟨b1, b2, b3⟩ := b
  obtain ⟨c1, c2, c3⟩ := c
  rw [version_le_mk_iff] at h1 h2 ⊢
  omega

/-- The version order is total. -/
theorem version_le_total (a b : Version) :
    Version.le a b = true ∨ Version.le b a = true := by
  obtain ⟨a1, a2, a3⟩ := a
  obtain ⟨b1, b2, b3⟩ := b
  rw [version_le_mk_iff, version_le_mk_iff]
  omega

/-- The version order is antisymmetric. -/
theorem version_le_antisymm {a b : Version} (h1 : Version.le a b = true)
    (h2 : Version.le b a = true) : a = b := by
  obtain ⟨a1, a2, a3⟩ := a
  obtain ⟨b1, b2, b3⟩ := b
  rw [version_le_mk_iff] at h1 h2
  simp only [Version.mk.injEq]
  refine ⟨?_, ?_, ?_⟩ <;> omega

/-- `0.0.0` is the least version. -/
theorem version_le_zero (v : Version) : Version.le ⟨0, 0, 0⟩ v = true := by
  obtain ⟨v1, v2, v3⟩ := v
  rw [version_le_mk_iff]
  omega

/-- `Version.max` returns one of its two arguments. -/
theorem version_max_cases (a b : Version) :
    Version.max a b = a ∨ Version.max a b = b := by
  unfold Version.max
  split
  · right
    rfl
  · left
    rfl

/-- `maxVersion` of a singleton list is its element. -/
theorem maxVersion_single (v : Version) : maxVersion [v] = v := by
  have hz : Version.le ⟨0, 0, 0⟩ v = true := version_le_zero v
  by_cases hle : Version.le v ⟨0, 0, 0⟩ = true
  · have hv := version_le_antisymm hle hz
    simp [maxVersion, Version.max, hle, hv]
  · simp [maxVersion, Version.max, hle]

/-- `maxVersion` is an upper bound of its list. -/
theorem maxVersion_ub :
    ∀ (l : List Version), ∀ k ∈ l, Version.le k (maxVersion l) = true := by
  intro l
  induction l with
  | nil =>
    intro k hk
    cases hk
  | cons v rest ih =>
    intro k hk
    have hstep : maxVersion (v :: rest) = Version.max v (maxVersion rest) := rfl
    by_cases hle : Version.le v (maxVersion rest) = true
    · have hm : maxVersion (v :: rest) = maxVersion rest := by
        rw [hstep]
        unfold Version.max
        rw [if_pos hle]
      rcases List.mem_cons.mp hk with rfl | hk'
      · rw [hm]
        exact hle
      · rw [hm]
        exact ih k hk'
    · have hm : maxVersion (v :: rest) = v := by
        rw [hstep]
        unfold Version.max
        rw [if_neg hle]
      have hmv : Version.le (maxVersion rest) v = true := by
        rcases version_le_total v (maxVersion rest) with h | h
        · exact absurd h hle
        · exact h
      rcases List.mem_cons.mp hk with rfl | hk'
      · rw [hm]
        exact version_le_refl k
      · rw [hm]
        exact version_le_trans (ih k hk') hmv

/-- For a nonempty list, `maxVersion` is an element of the list. -/
theorem maxVersion_mem : ∀ (l : List Version), l ≠ [] → maxVersion l ∈ l := by
  intro l
  induction l with
  | nil =>
    intro h
    exact absurd rfl h
  | cons v rest ih =>
    intro _
    by_cases hrest : rest = []
    · subst hrest
      rw [maxVersion_single]
      exact List.mem_cons_self v []
    · have hstep : maxVersion (v :: rest) = Version.max v (maxVersion rest) := rfl
      rcases version_max_cases v (maxVersion rest) with hm | hm
      · rw [hstep, hm]
        exact List.mem_cons_self v rest
      · rw [hstep, hm]
        exact List.mem_cons_of_mem v (ih hrest)

/-- `checkReleases` succeeds exactly when every entry passes the three
startup checks. -/
theorem checkReleases_ok_iff (fs : Fs) (cfg : SConfig) :
    ∀ l : List (Version × Sha256Hash),
      checkReleases fs cfg l = .ok () ↔ ∀ v h, (v, h) ∈ l → entryOk fs cfg v h := by
  intro l
  induction l with
  | nil => simp [checkReleases]
  | cons p rest ih =>
    obtain ⟨v, h⟩ := p
    constructor
    · intro hok
      simp only [checkReleases] at hok
      split at hok
      · rename_i hex
        split at hok
        · simp at hok
        · rename_i fh hhash
          split at hok
          · simp at hok
          · rename_i hne
            intro v' h' hmem
            rcases List.mem_cons.mp hmem with heq | hmem
            · injection heq with e1 e2
              subst e1
              subst e2
              have hfh : fh = h' := not_not.mp hne
              rw [Bool.and_eq_true] at hex
              exact ⟨hex.1, hex.2, by rw [hhash, hfh]⟩
            · exact (ih.mp hok) v' h' hmem
      · simp at hok
    · intro hall
      obtain ⟨h1, h2, h3⟩ := hall v h (List.mem_cons_self (v, h) rest)
      simp only [checkReleases, h1, h2, h3]
      simp only [Bool.and_self, if_true]
      simp only [ne_eq, not_true_eq_false, if_false]
      exact ih.mpr (fun v' h' hm => hall v' h' (List.mem_cons_of_mem (v, h) hm))

/-- Skipping a prefix of entries that all pass validation does not change the
result of `checkReleases` (this captures that the iteration order over the
version map only determines which failing entry is reported first). -/
theorem checkReleases_append (fs : Fs) (cfg : SConfig) :
    ∀ (pre l : List (Version × Sha256Hash)),
      (∀ v h, (v, h) ∈ pre → entryOk fs cfg v h) →
      checkReleases fs cfg (pre ++ l) = checkReleases fs cfg l := by
  intro pre
  induction pre with
  | nil =>
    intro l _
    rfl
  | cons p rest ih =>
    intro l hpre
    obtain ⟨v, h⟩ := p
    obtain ⟨h1, h2, h3⟩ := hpre v h (List.mem_cons_self (v, h) rest)
    simp only [List.cons_append, checkReleases, h1, h2, h3]
    simp only [Bool.and_self, if_true]
    simp only [ne_eq, not_true_eq_false, if_false]
    exact ih l (fun v' h' hm => hpre v' h' (List.mem_cons_of_mem (v, h) hm))

/-- C2: `Core::new` succeeds only if every configured `(version, hash)` entry
names an existing regular file hashing to the declared hash, caching as
`latest` the maximum configured version (`0.0.0` for an empty map); and for
the first failing entry in iteration order it fails with `Missing` when the
file is absent or not regular, `Unreadable` on an I/O error while hashing, and
`Invalid` when the computed hash differs from the declared one. -/
theorem C2_core_new_validation (fs : Fs) (cfg : SConfig) :
    (∀ core, coreNew fs cfg = .ok core →
      (∀ v h, (v, h) ∈ cfg.versions → entryOk fs cfg v h) ∧
      core.latest = maxVersion (cfg.versions.map Prod.fst) ∧
      (cfg.versions = [] → core.latest = ⟨0, 0, 0⟩) ∧
      (cfg.versions ≠ [] →
        core.latest ∈ cfg.versions.map Prod.fst ∧
        ∀ k ∈ cfg.versions.map Prod.fst, Version.le k core.latest = true)) ∧
    (∀ pre v h rest, cfg.versions = pre ++ (v, h) :: rest →
      (∀ v' h', (v', h') ∈ pre → entryOk fs cfg v' h') →
      (((fs (releaseFilePath cfg v)).pathExists &&
          (fs (releaseFilePath cfg v)).isFile) = false →
        coreNew fs cfg = .error (.Missing v (releaseFilePath cfg v))) ∧
      (∀ k m, ((fs (releaseFilePath cfg v)).pathExists &&
          (fs (releaseFilePath cfg v)).isFile) = true →
        (fs (releaseFilePath cfg v)).hashResult = .error (k, m) →
        coreNew fs cfg = .error (.Unreadable v k m)) ∧
      (∀ fh, ((fs (releaseFilePath cfg v)).pathExists &&
          (fs (releaseFilePath cfg v)).isFile) = true →
        (fs (releaseFilePath cfg v)).hashResult = .ok fh → fh ≠ h →
        coreNew fs cfg = .error (.Invalid v (releaseFilePath cfg v)))) := by
  constructor
  · intro core hok
    simp only [coreNew] at hok
    split at hok
    · simp at hok
    · rename_i val hchk
      have hcore : core = { config := cfg, latest := maxVersion (cfg.versions.map Prod.fst) } := by
        simpa using hok.symm
      subst hcore
      have hall := (checkReleases_ok_iff fs cfg cfg.versions).mp (by rw [hchk])
      refine ⟨hall, rfl, ?_, ?_⟩
      · intro hemp
        simp [hemp, maxVersion]
      · intro hne
        constructor
        · apply maxVersion_mem
          simp only [ne_eq, List.map_eq_nil_iff]
          exact hne
        · intro k hk
          exact maxVersion_ub _ k hk
  · intro pre v h rest hveq hpre
    have hred : checkReleases fs cfg cfg.versions = checkReleases fs cfg ((v, h) :: rest) := by
      rw [hveq]
      exact checkReleases_append fs cfg pre _ hpre
    refine ⟨?_, ?_, ?_⟩
    · intro hff
      have hchk : checkReleases fs cfg cfg.versions =
          .error (.Missing v (releaseFilePath cfg v)) := by
        rw [hred]
        simp only [checkReleases, hff]
        simp
      simp [coreNew, hchk]
    · intro k m htt herr
      have hchk : checkReleases fs cfg cfg.versions = .error (.Unreadable v k m) := by
        rw [hred]
        simp only [checkReleases, htt, herr]
        simp
      simp [coreNew, hchk]
    · intro fh htt hfh hne
      have hchk : checkReleases fs cfg cfg.versions =
          .error (.Invalid v (releaseFilePath cfg v)) := by
        rw [hred]
        simp only [checkReleases, htt, hfh]
        simp [hne]
      simp [coreNew, hchk]

/-- A server configuration with two valid versions. -/
def cfgW : SConfig where
  appname := "app"
  releases := "rel"
  versions := [(⟨1, 2, 3⟩, [1]), (⟨0, 1, 0⟩, [2])]

/-- A server configuration naming a version with no file on disk. -/
def cfgBad : SConfig where
  appname := "app"
  releases := "rel"
  versions := [(⟨9, 9, 9⟩, [3])]

/-- A filesystem containing exactly the two release files of `cfgW`. -/
def fsW : Fs := fun p =>
  if p = releaseFilePath cfgW ⟨1, 2, 3⟩ then ⟨true, true, .ok [1]⟩
  else if p = releaseFilePath cfgW ⟨0, 1, 0⟩ then ⟨true, true, .ok [2]⟩
  else ⟨false, false, .error ("NotFound", "missing")⟩

/-- Witness for C2: a concrete successful construction yields the validated
entries and the cached maximum, and a concrete absent file yields `Missing`. -/
theorem C2_core_new_validation_witness :
    entryOk fsW cfgW ⟨1, 2, 3⟩ [1] ∧
    ({ config := cfgW, latest := ⟨1, 2, 3⟩ } : Core).latest =
      maxVersion (cfgW.versions.map Prod.fst) ∧
    coreNew fsW cfgBad = .error (.Missing ⟨9, 9, 9⟩ (releaseFilePath cfgBad ⟨9, 9, 9⟩)) := by
  have h1 := (C2_core_new_validation fsW cfgW).1
    { config := cfgW, latest := ⟨1, 2, 3⟩ } (by decide)
  have h2 := ((C2_core_new_validation fsW cfgBad).2 [] ⟨9, 9, 9⟩ [3] [] rfl
    (fun v' h' hm => absurd hm (List.not_mem_nil _))).1 (by decide)
  exact ⟨h1.1 ⟨1, 2, 3⟩ [1] (by decide), h1.2.1, h2⟩

/-- The statuses the download loop emits while consuming a chunk list whose
writes all succeed, starting from accumulated length `startLen`: one
`Downloading` status per chunk, with the percentage computed from the
saturating running total. -/
def dlEmits (v : Version) (cl : Nat) (startLen : Nat) : List (List Nat) → List Status
  | [] => []
  | chunk :: rest =>
    Status.Downloading v (downloadPercent (min (startLen + chunk.length) USIZE_MAX) cl) ::
      dlEmits v cl (min (startLen + chunk.length) USIZE_MAX) rest

/-- The saturating running total of chunk lengths (`body_len` accumulated with
`saturating_add`). -/
def dlFinalLen (startLen : Nat) : List (List Nat) → Nat
  | [] => startLen
  | chunk :: rest => dlFinalLen (min (startLen + chunk.length) USIZE_MAX) rest

/-- When the true total fits in `usize`, the saturating total is the plain
sum. -/
theorem dlFinalLen_eq_sum :
    ∀ (good : List (List Nat)) (startLen : Nat),
      startLen + (good.map List.length).sum ≤ USIZE_MAX →
      dlFinalLen startLen good = startLen + (good.map List.length).sum := by
  intro good
  induction good with
  | nil =>
    intro startLen _
    simp [dlFinalLen]
  | cons chunk rest ih =>
    intro startLen hle
    simp only [List.map_cons, List.sum_cons] at hle
    have hmin : min (startLen + chunk.length) USIZE_MAX = startLen + chunk.length := by
      omega
    simp only [dlFinalLen, hmin]
    rw [ih (startLen + chunk.length) (by omega)]
    simp only [List.map_cons, List.sum_cons]
    omega

/-- Every status the download loop appends to the accumulator is a
`Downloading` status for the requested version with a percentage computed by
`downloadPercent`. -/
theorem dlLoop_emitted_shape (v : Version) (cl : Nat) (write : Nat → Except String Unit) :
    ∀ (stream : List (Except String (List Nat))) (idx : Nat) (acc : DlAcc),
      ∀ σ ∈ (dlLoop v cl write stream idx acc).1.emitted,
        σ ∈ acc.emitted ∨ ∃ r, σ = Status.Downloading v (downloadPercent r cl) := by
  intro stream
  induction stream with
  | nil =>
    intro idx acc σ hσ
    exact Or.inl hσ
  | cons item rest ih =>
    intro idx acc σ hσ
    cases item with
    | error e => exact Or.inl hσ
    | ok chunk =>
      rcases hwi : write idx with e | u
      · simp only [dlLoop, hwi] at hσ
        exact Or.inl hσ
      · simp only [dlLoop, hwi] at hσ
        rcases ih (idx + 1) _ σ hσ with hmem | hex
        · rcases List.mem_append.mp hmem with h1 | h2
          · exact Or.inl h1
          · right
            rcases List.mem_singleton.mp h2 with rfl
            exact ⟨min (acc.bodyLen + chunk.length) USIZE_MAX, rfl⟩
        · exact Or.inr hex

/-- A run of the download loop over a stream consisting of successful chunks
followed by either the end of the stream or a transport-error item, with all
writes succeeding: the loop consumes exactly the successful chunks, emits one
progress status per chunk, accumulates all their bytes, and reports no write
error. -/
theorem dlLoop_run (v : Version) (cl : Nat) (write : Nat → Except String Unit)
    (hw : ∀ i, write i = .ok ()) :
    ∀ (good : List (List Nat)) (tail : List (Except String (List Nat)))
      (idx : Nat) (acc : DlAcc),
      (tail = [] ∨ ∃ e rest, tail = .error e :: rest) →
      dlLoop v cl write (good.map Except.ok ++ tail) idx acc =
        ({ emitted := acc.emitted ++ dlEmits v cl acc.bodyLen good,
           bytes := acc.bytes ++ good.flatten,
           bodyLen := dlFinalLen acc.bodyLen good }, none) := by
  intro good
  induction good with
  | nil =>
    intro tail idx acc htail
    rcases htail with rfl | ⟨e, rest, rfl⟩ <;>
      simp [dlLoop, dlEmits, dlFinalLen]
  | cons chunk restGood ih =>
    intro tail idx acc htail
    simp only [List.map_cons, List.cons_append, dlLoop, hw idx]
    simp only [List.append_eq]
    rw [ih tail (idx + 1) _ htail]
    simp only [dlEmits, dlFinalLen, List.flatten_cons]
    simp [List.append_assoc]

/-- Replaying emitted statuses appends them to the broadcast log. -/
theorem applyEmits_broadcasts :
    ∀ (l : List Status) (s : UState),
      (applyEmits s l).broadcasts = s.broadcasts ++ l := by
  intro l
  induction l with
  | nil =>
    intro s
    simp [applyEmits]
  | cons st rest ih =>
    intro s
    simp [applyEmits, ih, setStatus]

/-- Replaying emitted statuses leaves the final status either unchanged (no
emission) or equal to one of the emitted statuses. -/
theorem applyEmits_status_mem :
    ∀ (l : List Status) (s : UState),
      (applyEmits s l).status = s.status ∨ (applyEmits s l).status ∈ l := by
  intro l
  induction l with
  | nil =>
    intro s
    exact Or.inl rfl
  | cons st rest ih =>
    intro s
    rcases ih (setStatus s st) with h | h
    · right
      rw [applyEmits, h]
      exact List.mem_cons_self st rest
    · right
      exact List.mem_cons_of_mem st h

/-- Replaying emitted statuses changes neither the counter, the request log,
nor the restart count. -/
theorem applyEmits_frame :
    ∀ (l : List Status) (s : UState),
      (applyEmits s l).actions = s.actions ∧
      (applyEmits s l).requests = s.requests ∧
      (applyEmits s l).restartCount = s.restartCount := by
  intro l
  induction l with
  | nil =>
    intro s
    exact ⟨rfl, rfl, rfl⟩
  | cons st rest ih =>
    intro s
    exact ih (setStatus s st)

/-- C10: in `download_update`, an error item in the response byte stream
terminates the chunk loop without producing a transport error: with all writes
succeeding, the outcome is decided solely by comparing the bytes received
before the error against the declared `Content-Length` — fewer bytes are
reported as `MissingData` carrying the received count (never as
`HttpRequestFailed`), and a stream error arriving after exactly
`content_length` bytes leaves the download successful. -/
theorem C10_stream_error_length_check (cfg : CConfig) (env : Env) (v : Version)
    (s : UState) (url : Url) (resp : ResponseData)
    (good : List (List Nat)) (e : String) (tail : List (Except String (List Nat)))
    (h1 : env.tempdirResult = .ok ())
    (h2 : env.createFileResult = .ok ())
    (h3 : requestResult cfg env (releasesEndpoint v) = .ok (url, resp))
    (h4 : getHeaderString resp hdrContentType = ctOctetStream)
    (h5 : resp.stream = good.map Except.ok ++ .error e :: tail)
    (h6 : ∀ i, env.writeResult i = .ok ())
    (h7 : (good.map List.length).sum ≤ USIZE_MAX) :
    ((good.map List.length).sum < getHeaderNat resp hdrContentLength →
      (downloadUpdate cfg env v s).2 =
        .error (.MissingData url ((good.map List.length).sum)
          (getHeaderNat resp hdrContentLength))) ∧
    ((good.map List.length).sum = getHeaderNat resp hdrContentLength →
      (downloadUpdate cfg env v s).2 = .ok (env.sha256 good.flatten)) ∧
    (∀ u m, (downloadUpdate cfg env v s).2 ≠ .error (.HttpRequestFailed u m)) := by
  have hrun := dlLoop_run v (getHeaderNat resp hdrContentLength) env.writeResult h6 good
    (.error e :: tail) 0 ⟨[], [], 0⟩ (Or.inr ⟨e, tail, rfl⟩)
  rw [← h5] at hrun
  have hlen : dlFinalLen 0 good = (good.map List.length).sum := by
    have := dlFinalLen_eq_sum good 0 (by omega)
    simpa using this
  have hdl : (downloadUpdate cfg env v s).2 =
      (if (good.map List.length).sum < getHeaderNat resp hdrContentLength then
        .error (.MissingData url ((good.map List.length).sum)
          (getHeaderNat resp hdrContentLength))
      else if getHeaderNat resp hdrContentLength < (good.map List.length).sum then
        .error (.TooMuchData url ((good.map List.length).sum)
          (getHeaderNat resp hdrContentLength))
      else .ok (env.sha256 good.flatten)) := by
    simp only [downloadUpdate, h1, h2, requestM, h3, hrun, hlen]
    simp [h4]
    split
    · rfl
    · split <;> rfl
  refine ⟨?_, ?_, ?_⟩
  · intro hlt
    rw [hdl]
    simp [hlt]
  · intro heq
    rw [hdl]
    simp [heq]
  · intro u m hcontra
    rw [hdl] at hcontra
    split at hcontra
    · simp at hcontra
    · split at hcontra
      · simp at hcontra
      · simp at hcontra

/-- A version used by the concrete download scenarios. -/
def vNew : Version := ⟨1, 1, 0⟩

/-- An idle updater state with empty logs. -/
def initState : UState := ⟨0, Status.Idle, [], [], 0⟩

/-- A release response declaring 3 bytes whose stream delivers 3 bytes and
then fails. -/
def respRelExact : ResponseData where
  status := 200
  headers := fun n =>
    if n = hdrContentType then some ctOctetStream
    else if n = hdrContentLength then some "3"
    else none
  body := none
  stream := [.ok [1, 2, 3], .error "reset", .ok [9]]

/-- A release response declaring 5 bytes whose stream delivers only 2 bytes
before failing. -/
def respRelShort : ResponseData where
  status := 200
  headers := fun n =>
    if n = hdrContentType then some ctOctetStream
    else if n = hdrContentLength then some "5"
    else none
  body := none
  stream := [.ok [1, 2], .error "reset"]

/-- An environment serving `respRelExact`; the hash function is the identity
on byte lists so that digests are directly observable. -/
def envExact : Env where
  joinUrl := fun _ => some "u"
  send := fun _ => .ok respRelExact
  parseLatest := fun _ => none
  parseVersionHash := fun _ => none
  tempdirResult := .ok ()
  tempdirPath := "/tmp/dl"
  createFileResult := .ok ()
  writeResult := fun _ => .ok ()
  sha256 := fun l => l
  replaceResult := .ok ()

/-- An environment serving `respRelShort`. -/
def envShort : Env where
  joinUrl := fun _ => some "u"
  send := fun _ => .ok respRelShort
  parseLatest := fun _ => none
  parseVersionHash := fun _ => none
  tempdirResult := .ok ()
  tempdirPath := "/tmp/dl"
  createFileResult := .ok ()
  writeResult := fun _ => .ok ()
  sha256 := fun l => l
  replaceResult := .ok ()

/-- Witness for C10: a stream error after exactly the declared number of bytes
leaves the download successful, and a stream error after fewer bytes is
reported as `MissingData` with the received count. -/
theorem C10_stream_error_length_check_witness :
    (downloadUpdate cfgTrue envExact vNew initState).2 = .ok [1, 2, 3] ∧
    (downloadUpdate cfgTrue envShort vNew initState).2 = .error (.MissingData "u" 2 5) := by
  constructor
  · exact (C10_stream_error_length_check cfgTrue envExact vNew initState "u"
      respRelExact [[1, 2, 3]] "reset" [.ok [9]] rfl rfl rfl rfl rfl
      (fun _ => rfl) (by decide)).2.1 (by decide)
  · exact (C10_stream_error_length_check cfgTrue envShort vNew initState "u"
      respRelShort [[1, 2]] "reset" [] rfl rfl rfl rfl rfl
      (fun _ => rfl) (by decide)).1 (by decide)

/-- A release response declaring 1 byte whose stream delivers 3 bytes: the
progress computation divides 3 by 1 and saturates the `u8` cast at 255. -/
def respRelOver : ResponseData where
  status := 200
  headers := fun n =>
    if n = hdrContentType then some ctOctetStream
    else if n = hdrContentLength then some "1"
    else none
  body := none
  stream := [.ok [7, 7, 7]]

/-- An environment serving `respRelOver`. -/
def envOver : Env where
  joinUrl := fun _ => some "u"
  send := fun _ => .ok respRelOver
  parseLatest := fun _ => none
  parseVersionHash := fun _ => none
  tempdirResult := .ok ()
  tempdirPath := "/tmp/dl"
  createFileResult := .ok ()
  writeResult := fun _ => .ok ()
  sha256 := fun l => l
  replaceResult := .ok ()

/-- Counterexample for C9: when the server delivers more bytes than the
declared `Content-Length` (here 3 bytes against a declared 1), the
`Downloading` status set during `download_update` carries percent 255 (the
saturating `f64` to `u8` cast), which is neither within `0..=100` nor equal to
`floor(100 * received / content_length) = 300`. -/
theorem C9_download_percent_counterexample :
    Status.Downloading vNew 255 ∈
      (downloadUpdate cfgTrue envOver vNew
        ⟨0, Status.Downloading vNew 0, [], [], 0⟩).1.broadcasts ∧
    ¬(255 ≤ 100) ∧
    Status.Downloading vNew 300 ∉
      (downloadUpdate cfgTrue envOver vNew
        ⟨0, Status.Downloading vNew 0, [], [], 0⟩).1.broadcasts := by
  decide

/-- The download loop consumes some leading run of successful chunks of the
stream and emits exactly one `Downloading` status per consumed chunk, with
the percentage computed by `downloadPercent` from the saturating running
total of bytes received so far (`dlEmits`). -/
theorem dlLoop_emitted_run (v : Version) (cl : Nat) (write : Nat → Except String Unit) :
    ∀ (stream : List (Except String (List Nat))) (idx : Nat) (acc : DlAcc),
      ∃ good rest, stream = good.map Except.ok ++ rest ∧
        (dlLoop v cl write stream idx acc).1.emitted =
          acc.emitted ++ dlEmits v cl acc.bodyLen good := by
  intro stream
  induction stream with
  | nil =>
    intro idx acc
    exact ⟨[], [], rfl, by simp [dlLoop, dlEmits]⟩
  | cons item rest0 ih =>
    intro idx acc
    cases item with
    | error e =>
      exact ⟨[], .error e :: rest0, rfl, by simp [dlLoop, dlEmits]⟩
    | ok chunk =>
      rcases hwi : write idx with e | u
      · exact ⟨[], .ok chunk :: rest0, rfl, by simp [dlLoop, hwi, dlEmits]⟩
      · obtain ⟨good2, rest2, hstream, hemit⟩ := ih (idx + 1)
          { emitted := acc.emitted ++
              [Status.Downloading v
                (downloadPercent (min (acc.bodyLen + chunk.length) USIZE_MAX) cl)],
            bytes := acc.bytes ++ chunk,
            bodyLen := min (acc.bodyLen + chunk.length) USIZE_MAX }
        refine ⟨chunk :: good2, rest2, by simp [hstream], ?_⟩
        simp only [dlLoop, hwi]
        rw [hemit]
        simp [dlEmits, List.append_assoc]

/-- The saturating `f64` to `u8` cast clamps the progress value at 255. -/
theorem downloadPercent_le_255 (r l : Nat) : downloadPercent r l ≤ 255 := by
  simp only [downloadPercent]
  split
  · split <;> omega
  · split
    · omega
    · exact min_le_right _ _

/-- C9 (amended): the `Downloading(v, percent)` statuses set during
`download_update` are exactly one per consumed chunk of the response stream,
each carrying `percent = downloadPercent received content_length` where
`received` is the saturating running total of bytes received up to and
including that chunk — `downloadPercent` being the bit-exact model of the
source's `(body_len as f64 / content_length as f64 * 100.0) as u8`; this
percent always lies in `0..=255` (the `u8` cast saturates at 255), but it is
not the exact `floor(100 * received / content_length)` (binary64 rounding can
truncate one below it) and it can exceed 100. -/
theorem C9_download_percent_amended (cfg : CConfig) (env : Env) (v : Version)
    (s : UState) (url : Url) (resp : ResponseData)
    (hreq : requestResult cfg env (releasesEndpoint v) = .ok (url, resp)) :
    (∃ good rest, resp.stream = good.map Except.ok ++ rest ∧
      (downloadUpdate cfg env v s).1.broadcasts =
        s.broadcasts ++ dlEmits v (getHeaderNat resp hdrContentLength) 0 good) ∧
    (∀ r l, downloadPercent r l ≤ 255) := by
  refine ⟨?_, fun r l => downloadPercent_le_255 r l⟩
  rcases htd : env.tempdirResult with etd | utd
  · refine ⟨[], resp.stream, rfl, ?_⟩
    simp [downloadUpdate, htd, dlEmits]
  · rcases hcf : env.createFileResult with ecf | ucf
    · refine ⟨[], resp.stream, rfl, ?_⟩
      simp [downloadUpdate, htd, hcf, dlEmits]
    · by_cases hct : getHeaderString resp hdrContentType ≠ ctOctetStream
      · refine ⟨[], resp.stream, rfl, ?_⟩
        simp only [downloadUpdate, htd, hcf, requestM, hreq]
        rw [if_pos hct]
        simp [dlEmits]
      · obtain ⟨good, rest, hstream, hemit⟩ := dlLoop_emitted_run v
          (getHeaderNat resp hdrContentLength) env.writeResult resp.stream 0 ⟨[], [], 0⟩
        refine ⟨good, rest, hstream, ?_⟩
        simp only [downloadUpdate, htd, hcf, requestM, hreq]
        rw [if_neg hct]
        rcases hdl : dlLoop v (getHeaderNat resp hdrContentLength) env.writeResult
          resp.stream 0 ⟨[], [], 0⟩ with ⟨acc, oe⟩
        rw [hdl] at hemit
        have hacc : acc.emitted = dlEmits v (getHeaderNat resp hdrContentLength) 0 good := by
          simpa using hemit
        cases oe with
        | some e2 =>
          simp only
          rw [applyEmits_broadcasts, hacc]
        | none =>
          simp only
          split
          · rw [applyEmits_broadcasts, hacc]
          · split
            · rw [applyEmits_broadcasts, hacc]
            · rw [applyEmits_broadcasts, hacc]

/-- A release response declaring 2 bytes whose stream delivers 1 byte. -/
def respRelHalf : ResponseData where
  status := 200
  headers := fun n =>
    if n = hdrContentType then some ctOctetStream
    else if n = hdrContentLength then some "2"
    else none
  body := none
  stream := [.ok [5]]

/-- An environment serving `respRelHalf`. -/
def envHalf : Env where
  joinUrl := fun _ => some "u"
  send := fun _ => .ok respRelHalf
  parseLatest := fun _ => none
  parseVersionHash := fun _ => none
  tempdirResult := .ok ()
  tempdirPath := "/tmp/dl"
  createFileResult := .ok ()
  writeResult := fun _ => .ok ()
  sha256 := fun l => l
  replaceResult := .ok ()

/-- Witness for C9's amended statement at a concrete download of 1 byte
against a declared length of 2: the emitted statuses are the `dlEmits` of a
leading chunk run of the stream, and the percent formula is capped at 255. -/
theorem C9_download_percent_amended_witness :
    (∃ good rest, respRelHalf.stream = good.map Except.ok ++ rest ∧
      (downloadUpdate cfgTrue envHalf vNew initState).1.broadcasts =
        initState.broadcasts ++
          dlEmits vNew (getHeaderNat respRelHalf hdrContentLength) 0 good) ∧
    downloadPercent 3 1 ≤ 255 := by
  have h := C9_download_percent_amended cfgTrue envHalf vNew initState "u" respRelHalf rfl
  exact ⟨h.1, h.2 3 1⟩

/-- The `Except` result of `download_update` does not depend on the updater
state it is run from (the state only accumulates the request log and the
emitted statuses). -/
theorem downloadUpdate_snd_const (cfg : CConfig) (env : Env) (v : Version)
    (s t : UState) :
    (downloadUpdate cfg env v s).2 = (downloadUpdate cfg env v t).2 := by
  rcases htd : env.tempdirResult with e | u
  · simp [downloadUpdate, htd]
  · rcases hcf : env.createFileResult with e | u
    · simp [downloadUpdate, htd, hcf]
    · rcases hr : requestResult cfg env (releasesEndpoint v) with e | ⟨url, resp⟩
      · simp [downloadUpdate, htd, hcf, requestM, hr]
      · by_cases hct : getHeaderString resp hdrContentType ≠ ctOctetStream
        · simp only [downloadUpdate, htd, hcf, requestM, hr]
          rw [if_pos hct, if_pos hct]
        · simp only [downloadUpdate, htd, hcf, requestM, hr]
          rw [if_neg hct, if_neg hct]
          rcases dlLoop v (getHeaderNat resp hdrContentLength) env.writeResult
            resp.stream 0 ⟨[], [], 0⟩ with ⟨acc, oe⟩
          cases oe with
          | none =>
            dsimp only
            split
            · rfl
            · split <;> rfl
          | some e2 => rfl

/-- The status after `download_update` is either the status it started from
(no progress emitted) or a `Downloading` status for the requested version. -/
theorem downloadUpdate_status (cfg : CConfig) (env : Env) (v : Version) (s : UState) :
    (downloadUpdate cfg env v s).1.status = s.status ∨
    ∃ p, (downloadUpdate cfg env v s).1.status = Status.Downloading v p := by
  rcases htd : env.tempdirResult with e | u
  · left
    simp [downloadUpdate, htd]
  · rcases hcf : env.createFileResult with e | u
    · left
      simp [downloadUpdate, htd, hcf]
    · rcases hr : requestResult cfg env (releasesEndpoint v) with e | ⟨url, resp⟩
      · left
        simp [downloadUpdate, htd, hcf, requestM, hr]
      · by_cases hct : getHeaderString resp hdrContentType ≠ ctOctetStream
        · left
          simp only [downloadUpdate, htd, hcf, requestM, hr]
          rw [if_pos hct]
        · have hshape := dlLoop_emitted_shape v (getHeaderNat resp hdrContentLength)
            env.writeResult resp.stream 0 ⟨[], [], 0⟩
          rcases hdl : dlLoop v (getHeaderNat resp hdrContentLength) env.writeResult
            resp.stream 0 ⟨[], [], 0⟩ with ⟨acc, oe⟩
          rw [hdl] at hshape
          have key : (applyEmits
              { s with requests := s.requests ++ requestTrace env (releasesEndpoint v) }
              acc.emitted).status = s.status ∨
              ∃ p, (applyEmits
                { s with requests := s.requests ++ requestTrace env (releasesEndpoint v) }
                acc.emitted).status = Status.Downloading v p := by
            rcases applyEmits_status_mem acc.emitted
              { s with requests := s.requests ++ requestTrace env (releasesEndpoint v) }
              with hu | hm
            · exact Or.inl hu
            · rcases hshape _ hm with habs | ⟨r, hex⟩
              · exact absurd habs (List.not_mem_nil _)
              · exact Or.inr ⟨downloadPercent r (getHeaderNat resp hdrContentLength), hex⟩
          simp only [downloadUpdate, htd, hcf, requestM, hr]
          rw [if_neg hct]
          simp only [hdl]
          cases oe with
          | none =>
            dsimp only
            split
            · exact key
            · split
              · exact key
              · exact key
          | some e2 => exact key

/-- The state after `verify_update` is the input state with the hash request
appended to the request log: the status cell and broadcast log are not
touched. -/
theorem verifyUpdate_fst (cfg : CConfig) (env : Env) (v : Version)
    (h : Sha256Hash) (s : UState) :
    (verifyUpdate cfg env v h s).1 =
      { s with requests := s.requests ++ requestTrace env (hashesEndpoint v) } := by
  rcases hr : requestResult cfg env (hashesEndpoint v) with e | ⟨url, resp⟩
  · simp [verifyUpdate, requestM, hr]
  · rcases hd : decodeAndVerify cfg env.parseVersionHash url resp with e | j
    · simp [verifyUpdate, requestM, hr, hd]
    · simp only [verifyUpdate, requestM, hr, hd]
      split
      · rfl
      · split <;> rfl

/-- The `Except` result of `verify_update` does not depend on the updater
state it is run from. -/
theorem verifyUpdate_snd_const (cfg : CConfig) (env : Env) (v : Version)
    (h : Sha256Hash) (s t : UState) :
    (verifyUpdate cfg env v h s).2 = (verifyUpdate cfg env v h t).2 := by
  rcases hr : requestResult cfg env (hashesEndpoint v) with e | ⟨url, resp⟩
  · simp [verifyUpdate, requestM, hr]
  · rcases hd : decodeAndVerify cfg env.parseVersionHash url resp with e | j
    · simp [verifyUpdate, requestM, hr, hd]
    · simp only [verifyUpdate, requestM, hr, hd]
      split
      · rfl
      · split <;> rfl

/-- The state-independent outcome of `download_update`. -/
def downloadOutcome (cfg : CConfig) (env : Env) (v : Version) :
    Except UpdaterError Sha256Hash :=
  (downloadUpdate cfg env v initState).2

/-- The state-independent outcome of `verify_update`. -/
def verifyOutcome (cfg : CConfig) (env : Env) (v : Version) (h : Sha256Hash) :
    Except UpdaterError Unit :=
  (verifyUpdate cfg env v h initState).2

/-- The state after the entry guard and the `latest` request of
`check_for_updates`: status `Checking` broadcast, request log extended. -/
def postCheckState (env : Env) (s : UState) : UState :=
  { setStatus s Status.Checking with
    requests := (setStatus s Status.Checking).requests ++ requestTrace env latestEndpoint }

/-- The state at the start of the download phase of `check_for_updates`:
status `Downloading v 0` broadcast on top of `postCheckState`. -/
def postDownloadStartState (env : Env) (s : UState) (v : Version) : UState :=
  setStatus (postCheckState env s) (Status.Downloading v 0)

/-- The state after the download phase of `check_for_updates`. -/
def dlState (cfg : CConfig) (env : Env) (s : UState) (v : Version) : UState :=
  (downloadUpdate cfg env v (postDownloadStartState env s v)).1

/-- The state after the verification phase of `check_for_updates`. -/
def vfState (cfg : CConfig) (env : Env) (s : UState) (v : Version)
    (fileHash : Sha256Hash) : UState :=
  (verifyUpdate cfg env v fileHash (dlState cfg env s v)).1

/-- When the early check phase fails (request or decode error for `latest`),
`check_for_updates` resets the status to `Idle`. -/
theorem checkForUpdates_early_error (cfg : CConfig) (env : Env) (s : UState)
    (hidle : s.status = Status.Idle) (e : UpdaterError)
    (hlo : latestOutcome cfg env = .error e) :
    checkForUpdates cfg env s = setStatus (postCheckState env s) Status.Idle := by
  rcases hr : requestResult cfg env latestEndpoint with e' | ⟨url, resp⟩
  · simp [checkForUpdates, requestM, hr, hidle, postCheckState]
  · have hd : decodeAndVerify cfg env.parseLatest url resp = .error e := by
      simpa [latestOutcome, hr] using hlo
    simp [checkForUpdates, requestM, hr, hd, hidle, postCheckState]

/-- When the advertised version is not newer, `check_for_updates` resets the
status to `Idle`. -/
theorem checkForUpdates_no_newer (cfg : CConfig) (env : Env) (s : UState)
    (hidle : s.status = Status.Idle) (v : Version)
    (hlo : latestOutcome cfg env = .ok v)
    (hle : Version.le v cfg.version = true) :
    checkForUpdates cfg env s = setStatus (postCheckState env s) Status.Idle := by
  rcases hr : requestResult cfg env latestEndpoint with e' | ⟨url, resp⟩
  · simp [latestOutcome, hr] at hlo
  · have hd : decodeAndVerify cfg env.parseLatest url resp = .ok v := by
      simpa [latestOutcome, hr] using hlo
    simp [checkForUpdates, requestM, hr, hd, hidle, hle, postCheckState]

/-- Once a newer version is confirmed, `check_for_updates` runs the download,
verification, and installation phases, returning at the first failure without
any further status change. -/
theorem checkForUpdates_confirmed (cfg : CConfig) (env : Env) (s : UState)
    (hidle : s.status = Status.Idle) (v : Version)
    (hlo : latestOutcome cfg env = .ok v)
    (hle : Version.le v cfg.version = false) :
    checkForUpdates cfg env s =
      (match (downloadUpdate cfg env v (postDownloadStartState env s v)).2 with
       | .error _ => dlState cfg env s v
       | .ok fileHash =>
         match (verifyUpdate cfg env v fileHash (dlState cfg env s v)).2 with
         | .error _ => vfState cfg env s v fileHash
         | .ok _ =>
           match env.replaceResult with
           | .error _ => setStatus (vfState cfg env s v fileHash) (Status.Installing v)
           | .ok _ =>
             if (setStatus (vfState cfg env s v fileHash) (Status.Installing v)).actions ≠ 0 then
               setStatus (setStatus (vfState cfg env s v fileHash) (Status.Installing v))
                 (Status.PendingRestart v)
             else
               doRestart (setStatus (setStatus (vfState cfg env s v fileHash)
                 (Status.Installing v)) (Status.Restarting v))) := by
  rcases hr : requestResult cfg env latestEndpoint with e' | ⟨url, resp⟩
  · simp [latestOutcome, hr] at hlo
  · have hd : decodeAndVerify cfg env.parseLatest url resp = .ok v := by
      simpa [latestOutcome, hr] using hlo
    simp [checkForUpdates, requestM, hr, hd, hidle, hle, postCheckState,
      postDownloadStartState, dlState, vfState]

/-- C8: starting from `Idle`, an update attempt resets the status to `Idle`
exactly when the early check phase ends it (a request or decode error for the
latest version, or no newer version); once a newer version is confirmed and
the pipeline enters `Downloading`, a failure in download or verification
leaves the status at a `Downloading(v, _)` stage, a failure in installation
leaves it at `Installing(v)`, and the status is never reset to `Idle`. -/
theorem C8_idle_reset_only_early (cfg : CConfig) (env : Env) (s : UState)
    (hidle : s.status = Status.Idle) :
    (((∃ e, latestOutcome cfg env = .error e) ∨
      (∃ v, latestOutcome cfg env = .ok v ∧ Version.le v cfg.version = true)) ↔
      (checkForUpdates cfg env s).status = Status.Idle) ∧
    (∀ v, latestOutcome cfg env = .ok v → Version.le v cfg.version = false →
      (checkForUpdates cfg env s).status ≠ Status.Idle ∧
      (∀ e, downloadOutcome cfg env v = .error e →
        ∃ p, (checkForUpdates cfg env s).status = Status.Downloading v p) ∧
      (∀ hsh e, downloadOutcome cfg env v = .ok hsh →
        verifyOutcome cfg env v hsh = .error e →
        ∃ p, (checkForUpdates cfg env s).status = Status.Downloading v p) ∧
      (∀ hsh e, downloadOutcome cfg env v = .ok hsh →
        verifyOutcome cfg env v hsh = .ok () →
        env.replaceResult = .error e →
        (checkForUpdates cfg env s).status = Status.Installing v)) := by
  have hdlstat : ∀ v : Version, ∃ p,
      (dlState cfg env s v).status = Status.Downloading v p := by
    intro v
    rcases downloadUpdate_status cfg env v (postDownloadStartState env s v) with h | h
    · exact ⟨0, by rw [dlState, h]; rfl⟩
    · exact h
  have hvfstat : ∀ (v : Version) (hsh : Sha256Hash),
      (vfState cfg env s v hsh).status = (dlState cfg env s v).status := by
    intro v hsh
    rw [vfState, verifyUpdate_fst]
  have hconf_ne : ∀ v, latestOutcome cfg env = .ok v →
      Version.le v cfg.version = false →
      (checkForUpdates cfg env s).status ≠ Status.Idle := by
    intro v hlo hle hfin
    rw [checkForUpdates_confirmed cfg env s hidle v hlo hle] at hfin
    rcases hdl2 : (downloadUpdate cfg env v (postDownloadStartState env s v)).2
      with e' | fileHash
    · rw [hdl2] at hfin
      have hbad : (dlState cfg env s v).status = Status.Idle := hfin
      obtain ⟨p, hp⟩ := hdlstat v
      rw [hp] at hbad
      exact Status.noConfusion hbad
    · rw [hdl2] at hfin
      dsimp only at hfin
      rcases hvr : (verifyUpdate cfg env v fileHash (dlState cfg env s v)).2 with e' | u
      · rw [hvr] at hfin
        have hbad : (vfState cfg env s v fileHash).status = Status.Idle := hfin
        rw [hvfstat v fileHash] at hbad
        obtain ⟨p, hp⟩ := hdlstat v
        rw [hp] at hbad
        exact Status.noConfusion hbad
      · rw [hvr] at hfin
        dsimp only at hfin
        rcases hrr : env.replaceResult with e' | u2
        · rw [hrr] at hfin
          exact Status.noConfusion hfin
        · rw [hrr] at hfin
          dsimp only at hfin
          by_cases hact :
            (setStatus (vfState cfg env s v fileHash) (Status.Installing v)).actions ≠ 0
          · rw [if_pos hact] at hfin
            exact Status.noConfusion hfin
          · rw [if_neg hact] at hfin
            exact Status.noConfusion hfin
  constructor
  · constructor
    · rintro (⟨e, hlo⟩ | ⟨v, hlo, hle⟩)
      · rw [checkForUpdates_early_error cfg env s hidle e hlo]
        rfl
      · rw [checkForUpdates_no_newer cfg env s hidle v hlo hle]
        rfl
    · intro hfin
      rcases hlo : latestOutcome cfg env with e | v
      · exact Or.inl ⟨e, rfl⟩
      · rcases hb : Version.le v cfg.version with _ | _
        · exact absurd hfin (hconf_ne v hlo hb)
        · exact Or.inr ⟨v, rfl, hb⟩
  · intro v hlo hle
    have hck := checkForUpdates_confirmed cfg env s hidle v hlo hle
    have hbrD : (downloadUpdate cfg env v (postDownloadStartState env s v)).2 =
        downloadOutcome cfg env v :=
      downloadUpdate_snd_const cfg env v _ initState
    refine ⟨hconf_ne v hlo hle, ?_, ?_, ?_⟩
    · intro e hdo
      obtain ⟨p, hp⟩ := hdlstat v
      refine ⟨p, ?_⟩
      rw [hck, hbrD, hdo]
      exact hp
    · intro hsh e hdo hvo
      have hbrV : (verifyUpdate cfg env v hsh (dlState cfg env s v)).2 =
          verifyOutcome cfg env v hsh :=
        verifyUpdate_snd_const cfg env v hsh _ initState
      obtain ⟨p, hp⟩ := hdlstat v
      refine ⟨p, ?_⟩
      rw [hck, hbrD, hdo]
      dsimp only
      rw [hbrV, hvo]
      exact (hvfstat v hsh).trans hp
    · intro hsh e hdo hvo hrr
      have hbrV : (verifyUpdate cfg env v hsh (dlState cfg env s v)).2 =
          verifyOutcome cfg env v hsh :=
        verifyUpdate_snd_const cfg env v hsh _ initState
      rw [hck, hbrD, hdo]
      dsimp only
      rw [hbrV, hvo]
      dsimp only
      rw [hrr]
      rfl

/-- A well-formed signed `latest` metadata response advertising a newer
version (body of 3 bytes matching its declared length). -/
def respLatest : ResponseData where
  status := 200
  headers := fun n =>
    if n = hdrContentType then some ctJson
    else if n = hdrContentLength then some "3"
    else if n = hdrSignature then some sigZeros
    else none
  body := some "2.0"
  stream := []

/-- An environment whose version check succeeds with version 2.0.0 but whose
download fails at temporary-directory creation. -/
def envConfirm : Env where
  joinUrl := fun _ => some "u"
  send := fun _ => .ok respLatest
  parseLatest := fun _ => some ⟨2, 0, 0⟩
  parseVersionHash := fun _ => none
  tempdirResult := .error "denied"
  tempdirPath := "/tmp"
  createFileResult := .ok ()
  writeResult := fun _ => .ok ()
  sha256 := fun l => l
  replaceResult := .ok ()

/-- Witness for C8: a concrete early failure (URL join refused) leaves the
status at `Idle`, and a concrete confirmed update whose download fails leaves
the status at a `Downloading` stage, not `Idle`. -/
theorem C8_idle_reset_only_early_witness :
    (checkForUpdates cfgTrue envTrivial initState).status = Status.Idle ∧
    (∃ p, (checkForUpdates cfgTrue envConfirm initState).status =
      Status.Downloading ⟨2, 0, 0⟩ p) := by
  constructor
  · exact (C8_idle_reset_only_early cfgTrue envTrivial initState rfl).1.mp
      (Or.inl ⟨.InvalidUrl cfgTrue.api latestEndpoint, rfl⟩)
  · exact ((C8_idle_reset_only_early cfgTrue envConfirm initState rfl).2
      ⟨2, 0, 0⟩ (by decide) (by decide)).2.1 (.UnableToCreateTempDir "denied") rfl
